import Mathlib

/-!
Verification of the USB-monitoring admission-control core.

This file shallowly embeds the decision core of the repository:
the Blowfish-style block cipher and RC4-style stream cipher
(server/crypto/blowfish.py, server/crypto/rc4.py), the encoding
wrapper (server/crypto/manager.py), the SQLite-backed repositories
(server/database/models.py, server/database/database.py), the HTTP
endpoints that mutate them (server/app.py) and the client policy
resolution (client/monitor.py).  Python integers are modelled as Nat
with explicit masking (`% 2 ^ 32` for the `& 0xFFFFFFFF` masks of the
source); byte strings are `List Nat` with each entry `< 256`; fallible
operations return `Except String`.
-/

set_option autoImplicit false

/-! ## Nat xor helpers -/

theorem natXor_cancel_right (a b : Nat) : a ^^^ b ^^^ b = a := by
  rw [Nat.xor_assoc, Nat.xor_self, Nat.xor_zero]

theorem natXor_cancel_left (a b : Nat) : a ^^^ (a ^^^ b) = b := by
  rw [← Nat.xor_assoc, Nat.xor_self, Nat.zero_xor]

theorem natXor_left_comm (a b c : Nat) : a ^^^ (b ^^^ c) = b ^^^ (a ^^^ c) := by
  rw [← Nat.xor_assoc, Nat.xor_comm a b, Nat.xor_assoc]

theorem natXor_lt_two_pow {a b n : Nat} (ha : a < 2 ^ n) (hb : b < 2 ^ n) :
    a ^^^ b < 2 ^ n := Nat.xor_lt_two_pow ha hb

/-! ## Big-endian 32-bit word packing (struct.pack / struct.unpack with format >I) -/

/-- Model of `struct.unpack of a 4-byte big-endian slice` : bytes to word. -/
def beWord (b0 b1 b2 b3 : Nat) : Nat :=
  ((b0 * 256 + b1) * 256 + b2) * 256 + b3

/-- Model of `struct.pack` for one 32-bit big-endian word: word to 4 bytes.
(The source requires the word to fit in 32 bits; our theorems establish that.) -/
def word32Bytes (x : Nat) : List Nat :=
  [x / 2 ^ 24 % 256, x / 2 ^ 16 % 256, x / 2 ^ 8 % 256, x % 256]

theorem beWord_lt {b0 b1 b2 b3 : Nat} (h0 : b0 < 256) (h1 : b1 < 256)
    (h2 : b2 < 256) (h3 : b3 < 256) : beWord b0 b1 b2 b3 < 2 ^ 32 := by
  simp only [beWord]; omega

theorem word32Bytes_beWord {b0 b1 b2 b3 : Nat} (h0 : b0 < 256) (h1 : b1 < 256)
    (h2 : b2 < 256) (h3 : b3 < 256) :
    word32Bytes (beWord b0 b1 b2 b3) = [b0, b1, b2, b3] := by
  simp only [word32Bytes, beWord, List.cons.injEq, and_true]
  refine ⟨?_, ?_, ?_, ?_⟩ <;> omega

theorem beWord_word32Bytes {x : Nat} (hx : x < 2 ^ 32) :
    beWord (x / 2 ^ 24 % 256) (x / 2 ^ 16 % 256) (x / 2 ^ 8 % 256) (x % 256) = x := by
  simp only [beWord]; omega

theorem word32Bytes_mem_lt {x b : Nat} (hb : b ∈ word32Bytes x) : b < 256 := by
  simp only [word32Bytes, List.mem_cons, List.not_mem_nil, or_false] at hb
  rcases hb with h | h | h | h <;> subst h <;> omega

/-! ## BlowfishCipher (server/crypto/blowfish.py)

State: the 18-entry P array and the four 256-entry S boxes.  The
source stores them as Python lists; we use `List Nat`, with reads
via `getD` (all source indices are in range). -/

structure BlowfishState where
  P : List Nat
  S : List (List Nat)
  deriving Repr, DecidableEq

/-- Read of `self.P[i]`. -/
def pAt (st : BlowfishState) (i : Nat) : Nat := st.P.getD i 0

/-- Read of `self.S[i][a]`. -/
def sAt (st : BlowfishState) (i a : Nat) : Nat := (st.S.getD i []).getD a 0

/-- Model of `_f_function`: split a 32-bit half into bytes a,b,c,d and combine
the four S-box entries; additions are masked to 32 bits as in the source. -/
def fFunction (st : BlowfishState) (x : Nat) : Nat :=
  let a := x / 2 ^ 24 % 256
  let b := x / 2 ^ 16 % 256
  let c := x / 2 ^ 8 % 256
  let d := x % 256
  let r1 := (sAt st 0 a + sAt st 1 b) % 2 ^ 32
  let r2 := r1 ^^^ sAt st 2 c
  (r2 + sAt st 3 d) % 2 ^ 32

/-- Model of one iteration of the round loop shared by `_encrypt_block` and
`_decrypt_block`: xor the subkey into the left half, mix through the
F function, swap. -/
def bfRound (st : BlowfishState) (lr : Nat × Nat) (i : Nat) : Nat × Nat :=
  let l := lr.1 ^^^ pAt st i
  let r := fFunction st l ^^^ lr.2
  (r, l)

/-- Model of `_encrypt_block`: 16 rounds on subkeys 0..15, undo the final
swap, then xor P[16] into the right half and P[17] into the left half. -/
def bfEncryptBlock (st : BlowfishState) (l r : Nat) : Nat × Nat :=
  let lr := (List.range 16).foldl (bfRound st) (l, r)
  let lr2 := (lr.2, lr.1)
  (lr2.1 ^^^ pAt st 17, lr2.2 ^^^ pAt st 16)

/-- Model of `_decrypt_block`: the same loop body walking the subkeys from
index 17 down to 2, undo the final swap, then xor P[1] into the right
half and P[0] into the left half. -/
def bfDecryptBlock (st : BlowfishState) (l r : Nat) : Nat × Nat :=
  let lr := ((List.range 16).map (fun k => 17 - k)).foldl (bfRound st) (l, r)
  let lr2 := (lr.2, lr.1)
  (lr2.1 ^^^ pAt st 0, lr2.2 ^^^ pAt st 1)

/-! ### Block-level inversion

The proof peels the decryption rounds one at a time against the
encryption fold, mirroring the standard Feistel-network argument. -/

/-- Encryption state after the first `n` rounds. -/
def bfEncStage (st : BlowfishState) (l r n : Nat) : Nat × Nat :=
  (List.range n).foldl (bfRound st) (l, r)

/-- Decryption indices 17, 16, ..., 17 - t. -/
def bfDecIxs (t : Nat) : List Nat := (List.range (t + 1)).map (fun k => 17 - k)

theorem bfEncStage_succ (st : BlowfishState) (l r n : Nat) :
    bfEncStage st l r (n + 1) = bfRound st (bfEncStage st l r n) n := by
  simp [bfEncStage, List.range_succ]

theorem bfDecIxs_succ (t : Nat) :
    bfDecIxs (t + 1) = bfDecIxs t ++ [17 - (t + 1)] := by
  simp [bfDecIxs, List.range_succ]

/-- Peeling invariant: after running decryption rounds 17 down to 17 - t on
the encryption output, the state exposes the encryption stage 16 - t. -/
theorem bfDec_peel (st : BlowfishState) (l r : Nat) :
    ∀ t, t ≤ 15 →
      (bfDecIxs t).foldl (bfRound st)
          ((bfEncStage st l r 16).2 ^^^ pAt st 17, (bfEncStage st l r 16).1 ^^^ pAt st 16) =
        (fFunction st (bfEncStage st l r (16 - t)).2 ^^^
            ((bfEncStage st l r (16 - t)).1 ^^^ pAt st (16 - t)),
          (bfEncStage st l r (16 - t)).2) := by
  intro t
  induction t with
  | zero =>
    intro _
    show (bfDecIxs 0).foldl (bfRound st) _ = _
    have h0 : bfDecIxs 0 = [17] := by rfl
    rw [h0]
    simp only [List.foldl, bfRound, Nat.sub_zero]
    rw [natXor_cancel_right]
  | succ t ih =>
    intro ht
    have ht' : t ≤ 15 := by omega
    rw [bfDecIxs_succ, List.foldl_append, ih ht']
    have hsub : 16 - t = (16 - (t + 1)) + 1 := by omega
    have hidx : 17 - (t + 1) = 16 - t := by omega
    rw [hsub, bfEncStage_succ]
    simp only [List.foldl, bfRound, hidx, hsub]
    simp only [Nat.xor_assoc, Nat.xor_self, Nat.xor_zero, Nat.zero_xor,
      natXor_cancel_left, Prod.mk.injEq]

/-- Feistel inversion at block level: decrypting an encrypted 64-bit block
recovers the block, for every cipher state and every pair of halves. -/
theorem bfDecryptBlock_bfEncryptBlock (st : BlowfishState) (l r : Nat) :
    bfDecryptBlock st (bfEncryptBlock st l r).1 (bfEncryptBlock st l r).2 = (l, r) := by
  have hpeel := bfDec_peel st l r 15 (by omega)
  have hids : ((List.range 16).map (fun k => 17 - k)) = bfDecIxs 15 := by rfl
  show bfDecryptBlock st ((bfEncStage st l r 16).2 ^^^ pAt st 17)
      ((bfEncStage st l r 16).1 ^^^ pAt st 16) = (l, r)
  rw [bfDecryptBlock]
  rw [hids, hpeel]
  have h1 : bfEncStage st l r (16 - 15) = bfRound st (l, r) 0 := by
    show bfEncStage st l r 1 = _
    rw [show (1 : Nat) = 0 + 1 by rfl, bfEncStage_succ]
    rfl
  rw [h1]
  have h2 : (16 : Nat) - 15 = 1 := by omega
  simp only [bfRound, h2]
  simp only [Nat.xor_assoc, Nat.xor_self, Nat.xor_zero, Nat.zero_xor,
    natXor_cancel_left, Prod.mk.injEq]

/-! ### 32-bit bounds

The source packs each output half with `struct.pack` format >I, which
requires it to fit in 32 bits.  The F function is masked to 32 bits, so
the halves stay below `2 ^ 32` whenever the P entries do. -/

/-- Wellformedness of the P array: every subkey fits in 32 bits. -/
def PWF (st : BlowfishState) : Prop := ∀ x ∈ st.P, x < 2 ^ 32

theorem getD_lt_of_forall {l : List Nat} {B : Nat} (h : ∀ x ∈ l, x < B)
    (hB : 0 < B) : ∀ i, l.getD i 0 < B := by
  intro i
  induction l generalizing i with
  | nil => simpa [List.getD] using hB
  | cons a t ih =>
    cases i with
    | zero => exact h a (List.mem_cons_self a t)
    | succ j =>
      simp only [List.getD_cons_succ]
      exact ih (fun x hx => h x (List.mem_cons_of_mem a hx)) j

theorem pAt_lt {st : BlowfishState} (h : PWF st) (i : Nat) : pAt st i < 2 ^ 32 :=
  getD_lt_of_forall h (by norm_num) i

theorem fFunction_lt (st : BlowfishState) (x : Nat) : fFunction st x < 2 ^ 32 :=
  Nat.mod_lt _ (by norm_num)

theorem bfRound_lt {st : BlowfishState} (h : PWF st) {lr : Nat × Nat} (i : Nat)
    (h1 : lr.1 < 2 ^ 32) (h2 : lr.2 < 2 ^ 32) :
    (bfRound st lr i).1 < 2 ^ 32 ∧ (bfRound st lr i).2 < 2 ^ 32 := by
  refine ⟨natXor_lt_two_pow (fFunction_lt st _) h2, natXor_lt_two_pow h1 (pAt_lt h i)⟩

theorem foldl_bfRound_lt {st : BlowfishState} (h : PWF st) :
    ∀ (ixs : List Nat) (lr : Nat × Nat), lr.1 < 2 ^ 32 → lr.2 < 2 ^ 32 →
      (ixs.foldl (bfRound st) lr).1 < 2 ^ 32 ∧ (ixs.foldl (bfRound st) lr).2 < 2 ^ 32 := by
  intro ixs
  induction ixs with
  | nil => intro lr h1 h2; exact ⟨h1, h2⟩
  | cons i rest ih =>
    intro lr h1 h2
    have hr := bfRound_lt h i h1 h2
    exact ih (bfRound st lr i) hr.1 hr.2

theorem bfEncryptBlock_lt {st : BlowfishState} (h : PWF st) {l r : Nat}
    (hl : l < 2 ^ 32) (hr : r < 2 ^ 32) :
    (bfEncryptBlock st l r).1 < 2 ^ 32 ∧ (bfEncryptBlock st l r).2 < 2 ^ 32 := by
  have hf := foldl_bfRound_lt h (List.range 16) (l, r) hl hr
  exact ⟨natXor_lt_two_pow hf.2 (pAt_lt h 17), natXor_lt_two_pow hf.1 (pAt_lt h 16)⟩

/-! ### PKCS#7 padding (methods `_pad_pkcs7` and `_unpad_pkcs7`) -/

/-- Model of `_pad_pkcs7`: append padding_len copies of padding_len, where
padding_len = block_size - len(data) % block_size. -/
def padPKCS7 (data : List Nat) (blockSize : Nat) : List Nat :=
  let paddingLen := blockSize - data.length % blockSize
  data ++ List.replicate paddingLen paddingLen

/-- Model of `_unpad_pkcs7`: reject empty data, a padding length of zero or
one exceeding the buffer, and any trailing byte that differs from the
padding length; otherwise drop the padding. -/
def unpadPKCS7 (data : List Nat) : Except String (List Nat) :=
  if data.length = 0 then .error "data must not be empty"
  else
    let paddingLen := data.getD (data.length - 1) 0
    if paddingLen > data.length ∨ paddingLen = 0 then .error "incorrect padding"
    else if (List.range paddingLen).all
        (fun i => data.getD (data.length - (i + 1)) 0 == paddingLen) then
      .ok (data.take (data.length - paddingLen))
    else .error "incorrect pkcs7 padding"

theorem padPKCS7_length_mod (data : List Nat) : (padPKCS7 data 8).length % 8 = 0 := by
  simp only [padPKCS7, List.length_append, List.length_replicate]
  omega

theorem padPKCS7_mem_lt {data : List Nat} (h : ∀ b ∈ data, b < 256) :
    ∀ b ∈ padPKCS7 data 8, b < 256 := by
  intro b hb
  simp only [padPKCS7, List.mem_append, List.mem_replicate] at hb
  rcases hb with hb | hb
  · exact h b hb
  · omega

/-- Unpadding inverts padding at block size 8. -/
theorem unpadPKCS7_padPKCS7 (data : List Nat) :
    unpadPKCS7 (padPKCS7 data 8) = .ok data := by
  have hp1 : 1 ≤ 8 - data.length % 8 := by omega
  have hp8 : 8 - data.length % 8 ≤ 8 := by omega
  set p := 8 - data.length % 8 with hp
  have hlen : (padPKCS7 data 8).length = data.length + p := by
    simp [padPKCS7, List.length_append, List.length_replicate]
  have hlast : (padPKCS7 data 8).getD ((padPKCS7 data 8).length - 1) 0 = p := by
    rw [hlen]
    simp only [padPKCS7, ← hp]
    rw [List.getD_append_right data (List.replicate p p) 0 (data.length + p - 1) (by omega)]
    have hidx : data.length + p - 1 - data.length = p - 1 := by omega
    rw [hidx, List.getD_eq_getElem _ _ (by simp [List.length_replicate]; omega)]
    exact List.getElem_replicate ..
  have hbytes : ∀ i < p, (padPKCS7 data 8).getD ((padPKCS7 data 8).length - (i + 1)) 0 = p := by
    intro i hi
    rw [hlen]
    simp only [padPKCS7, ← hp]
    rw [List.getD_append_right data (List.replicate p p) 0 (data.length + p - (i + 1)) (by omega)]
    rw [List.getD_eq_getElem _ _ (by simp [List.length_replicate]; omega)]
    exact List.getElem_replicate ..
  rw [unpadPKCS7]
  rw [if_neg (by omega)]
  rw [hlast]
  rw [if_neg (by omega)]
  rw [if_pos]
  · rw [hlen]
    have htake : data.length + p - p = data.length := by omega
    rw [htake]
    simp only [padPKCS7, ← hp]
    exact congrArg Except.ok (List.take_left data (List.replicate p p))
  · rw [List.all_eq_true]
    intro i hi
    rw [List.mem_range] at hi
    rw [hbytes i hi]
    exact beq_self_eq_true p

/-! ### Whole-message encryption (methods `encrypt` and `decrypt`)

The source walks the byte string eight bytes at a time, unpacking two
big-endian words, transforming them with the block function, and packing
the result.  Both callers only ever pass multiples of eight bytes (the
encrypt path pads first, the decrypt path checks the length), so the
trailing short-slice case is unreachable; the model returns [] there. -/

def processBlocks (f : Nat → Nat → Nat × Nat) : List Nat → List Nat
  | b0 :: b1 :: b2 :: b3 :: b4 :: b5 :: b6 :: b7 :: rest =>
    let res := f (beWord b0 b1 b2 b3) (beWord b4 b5 b6 b7)
    word32Bytes res.1 ++ word32Bytes res.2 ++ processBlocks f rest
  | _ => []

/-- Model of `BlowfishCipher.encrypt`: PKCS#7 pad to 8 bytes, then encrypt
each 8-byte block independently. -/
def blowfishEncrypt (st : BlowfishState) (plaintext : List Nat) : List Nat :=
  processBlocks (bfEncryptBlock st) (padPKCS7 plaintext 8)

/-- Model of `BlowfishCipher.decrypt`: reject a length that is not a
multiple of 8, decrypt each block, then strip the PKCS#7 padding. -/
def blowfishDecrypt (st : BlowfishState) (ciphertext : List Nat) : Except String (List Nat) :=
  if ciphertext.length % 8 ≠ 0 then .error "ciphertext length must be a multiple of 8"
  else unpadPKCS7 (processBlocks (bfDecryptBlock st) ciphertext)

theorem processBlocks_length_mod (f : Nat → Nat → Nat × Nat) :
    ∀ data : List Nat, (processBlocks f data).length % 8 = 0 := by
  intro data
  induction data using processBlocks.induct f with
  | case1 b0 b1 b2 b3 b4 b5 b6 b7 rest ih =>
    simp only [processBlocks, List.length_append, word32Bytes, List.length_cons,
      List.length_nil]
    omega
  | case2 data h =>
    match data, h with
    | [], _ => rfl
    | [a], h => rfl
    | [a, b], h => rfl
    | [a, b, c], h => rfl
    | [a, b, c, d], h => rfl
    | [a, b, c, d, e], h => rfl
    | [a, b, c, d, e, f1], h => rfl
    | [a, b, c, d, e, f1, g], h => rfl
    | a :: b :: c :: d :: e :: f1 :: g :: h1 :: t, h => exact absurd rfl (h a b c d e f1 g h1 t)

/-- Decrypting the blockwise encryption of an 8-aligned byte string recovers
it, for any state with 32-bit subkeys. -/
theorem processBlocks_roundtrip {st : BlowfishState} (hwf : PWF st) :
    ∀ data : List Nat, data.length % 8 = 0 → (∀ b ∈ data, b < 256) →
      processBlocks (bfDecryptBlock st) (processBlocks (bfEncryptBlock st) data) = data := by
  intro data
  induction data using processBlocks.induct (bfEncryptBlock st) with
  | case1 b0 b1 b2 b3 b4 b5 b6 b7 rest ih =>
    intro hlen hmem
    have hb : ∀ b ∈ [b0, b1, b2, b3, b4, b5, b6, b7], b < 256 := by
      intro b hb
      refine hmem b ?_
      simp only [List.mem_cons, List.not_mem_nil, or_false] at hb
      simp only [List.mem_cons]
      tauto
    have h0 := hb b0 (by simp)
    have h1 := hb b1 (by simp)
    have h2 := hb b2 (by simp)
    have h3 := hb b3 (by simp)
    have h4 := hb b4 (by simp)
    have h5 := hb b5 (by simp)
    have h6 := hb b6 (by simp)
    have h7 := hb b7 (by simp)
    have hrestlen : rest.length % 8 = 0 := by
      simp only [List.length_cons] at hlen; omega
    have hrestmem : ∀ b ∈ rest, b < 256 := by
      intro b hbr
      exact hmem b (by simp [List.mem_cons, hbr])
    have hL := beWord_lt h0 h1 h2 h3
    have hR := beWord_lt h4 h5 h6 h7
    have henc := bfEncryptBlock_lt hwf hL hR
    simp only [processBlocks]
    rw [beWord_word32Bytes henc.1, beWord_word32Bytes henc.2]
    rw [bfDecryptBlock_bfEncryptBlock st (beWord b0 b1 b2 b3) (beWord b4 b5 b6 b7)]
    simp [word32Bytes_beWord h0 h1 h2 h3, word32Bytes_beWord h4 h5 h6 h7,
      ih hrestlen hrestmem]
  | case2 data h =>
    intro hlen _
    match data, h with
    | [], _ => rfl
    | [a], h => simp at hlen
    | [a, b], h => simp at hlen
    | [a, b, c], h => simp at hlen
    | [a, b, c, d], h => simp at hlen
    | [a, b, c, d, e], h => simp at hlen
    | [a, b, c, d, e, f1], h => simp at hlen
    | [a, b, c, d, e, f1, g], h => simp at hlen
    | a :: b :: c :: d :: e :: f1 :: g :: h1 :: t, h => exact absurd rfl (h a b c d e f1 g h1 t)

/-! ### Key expansion (`__init__` and `_expand_key`) -/

/-- Initial P array values (P_ARRAY_INIT). -/
def bfPInit : List Nat :=
  [0x243F6A88, 0x85A308D3, 0x13198A2E, 0x03707344,
   0xA4093822, 0x299F31D0, 0x082EFA98, 0xEC4E6C89,
   0x452821E6, 0x38D01377, 0xBE5466CF, 0x34E90C6C,
   0xC0AC29B7, 0xC97C50DD, 0x3F84D5B5, 0xB5470917,
   0x9216D5D9, 0x8979FB1B]

/-- Sixteen base values of S-box 0; the source repeats them 16 times. -/
def bfSBase0 : List Nat :=
  [0xD1310BA6, 0x98DFB5AC, 0x2FFD72DB, 0xD01ADFB7,
   0xB8E1AFED, 0x6A267E96, 0xBA7C9045, 0xF12C7F99,
   0x24A19947, 0xB3916CF7, 0x0801F2E2, 0x858EFC16,
   0x636920D8, 0x71574E69, 0xA458FEA3, 0xF4933D7E]

/-- Sixteen base values of S-box 1. -/
def bfSBase1 : List Nat :=
  [0x0D95748F, 0x728EB658, 0x718BCD58, 0x82154AEE,
   0x7B54A41D, 0xC25A59B5, 0x9C30D539, 0x2AF26013,
   0xC5D1B023, 0x286085F0, 0xCA417918, 0xB8DB38EF,
   0x8E79DCB0, 0x603A180E, 0x6C9E0E8B, 0xB01E8A3E]

/-- Sixteen base values of S-box 2. -/
def bfSBase2 : List Nat :=
  [0xD71577C1, 0xBD314B27, 0x78AF2FDA, 0x55605C60,
   0xE65525F3, 0xAA55AB94, 0x57489862, 0x63E81440,
   0x55CA396A, 0x2AAB10B6, 0xB4CC5C34, 0x1141E8CE,
   0xA15486AF, 0x7C72E993, 0xB3EE1411, 0x636FBC2A]

/-- Sixteen base values of S-box 3. -/
def bfSBase3 : List Nat :=
  [0x2BA9C55D, 0x741831F6, 0xCE5C3E16, 0x9B87931E,
   0xAFD6BA33, 0x6C24CF5C, 0x7A325381, 0x28958677,
   0x3B8F4898, 0x6B4BB9AF, 0xC4BFE81B, 0x66282193,
   0x61D809CC, 0xFB21A991, 0x487CAC60, 0x5DEC8032]

/-- Initial S boxes (S_BOXES_INIT): each 16-value base list repeated 16
times, giving 256 entries per box. -/
def bfSInit : List (List Nat) :=
  [(List.replicate 16 bfSBase0).flatten,
   (List.replicate 16 bfSBase1).flatten,
   (List.replicate 16 bfSBase2).flatten,
   (List.replicate 16 bfSBase3).flatten]

/-- Model of the four-byte accumulation inside `_expand_key`: starting from
data and the running key offset j, fold `data = (data << 8) | key[j]`,
`j = (j + 1) % key_len` four times. -/
def bfKeyData (key : List Nat) (j : Nat) : Nat × Nat :=
  (List.range 4).foldl
    (fun acc _ => ((acc.1 <<< 8) ||| key.getD acc.2 0, (acc.2 + 1) % key.length)) (0, j)

/-- Model of the first `_expand_key` phase: xor four key bytes at a time
into each of the 18 P entries, cycling through the key. -/
def bfXorPhase (key : List Nat) (P : List Nat) : List Nat :=
  ((List.range 18).foldl
    (fun acc i =>
      let dj := bfKeyData key acc.2
      (acc.1.set i (acc.1.getD i 0 ^^^ dj.1), dj.2))
    (P, 0)).1

/-- Model of the second `_expand_key` phase: repeatedly encrypt the running
(left, right) pair with the evolving state, overwriting P[2k] and P[2k+1]. -/
def bfRegenP (st : BlowfishState) : BlowfishState × Nat × Nat :=
  (List.range 9).foldl
    (fun acc k =>
      let lr := bfEncryptBlock acc.1 acc.2.1 acc.2.2
      (⟨(acc.1.P.set (2 * k) lr.1).set (2 * k + 1) lr.2, acc.1.S⟩, lr.1, lr.2))
    (st, 0, 0)

/-- Model of the third `_expand_key` phase: continue encrypting the running
pair, overwriting S[i][2k] and S[i][2k+1] for each box in turn. -/
def bfRegenS (st : BlowfishState) (l r : Nat) : BlowfishState :=
  ((List.range 4).foldl
    (fun acc i =>
      (List.range 128).foldl
        (fun acc2 k =>
          let lr := bfEncryptBlock acc2.1 acc2.2.1 acc2.2.2
          (⟨acc2.1.P,
            acc2.1.S.set i (((acc2.1.S.getD i []).set (2 * k) lr.1).set (2 * k + 1) lr.2)⟩,
            lr.1, lr.2))
        acc)
    (st, l, r)).1

/-- Model of `BlowfishCipher.__init__` state construction: copy the initial
constants and run the key expansion.  (The constructor also validates the
key length, modelled by `bfValidKey`.) -/
def bfExpandKey (key : List Nat) : BlowfishState :=
  let P1 := bfXorPhase key bfPInit
  let res := bfRegenP ⟨P1, bfSInit⟩
  bfRegenS res.1 res.2.1 res.2.2

/-- Key validation of `BlowfishCipher.__init__`: 4 to 56 bytes. -/
def bfValidKey (key : List Nat) : Prop :=
  4 ≤ key.length ∧ key.length ≤ 56 ∧ ∀ b ∈ key, b < 256

theorem shiftOrByte_lt {d b n : Nat} (hd : d < 2 ^ n) (hb : b < 256) :
    (d <<< 8) ||| b < 2 ^ (n + 8) := by
  have hs : d <<< 8 < 2 ^ (n + 8) := by
    rw [Nat.shiftLeft_eq, Nat.pow_add]
    exact Nat.mul_lt_mul_of_lt_of_le hd (by norm_num) (by norm_num)
  have hb2 : b < 2 ^ (n + 8) := by
    calc b < 256 := hb
    _ = 2 ^ 8 := by norm_num
    _ ≤ 2 ^ (n + 8) := Nat.pow_le_pow_right (by norm_num) (by omega)
  exact Nat.or_lt_two_pow hs hb2

theorem bfKeyData_lt {key : List Nat} (h : ∀ b ∈ key, b < 256) (j : Nat) :
    (bfKeyData key j).1 < 2 ^ 32 := by
  have hb : ∀ i, key.getD i 0 < 256 := getD_lt_of_forall h (by norm_num)
  have h4 : List.range 4 = [0, 1, 2, 3] := rfl
  rw [bfKeyData, h4]
  simp only [List.foldl]
  have s0 : (0 : Nat) < 2 ^ 0 := by norm_num
  have s1 := shiftOrByte_lt s0 (hb j)
  have s2 := shiftOrByte_lt s1 (hb ((j + 1) % key.length))
  have s3 := shiftOrByte_lt s2 (hb (((j + 1) % key.length + 1) % key.length))
  have s4 := shiftOrByte_lt s3
    (hb ((((j + 1) % key.length + 1) % key.length + 1) % key.length))
  exact s4

theorem bfXorPhase_wf {key P : List Nat} (hkey : ∀ b ∈ key, b < 256)
    (hP : ∀ x ∈ P, x < 2 ^ 32) : ∀ x ∈ bfXorPhase key P, x < 2 ^ 32 := by
  rw [bfXorPhase]
  have main : ∀ (ixs : List Nat) (acc : List Nat × Nat), (∀ x ∈ acc.1, x < 2 ^ 32) →
      ∀ x ∈ (ixs.foldl
        (fun acc i =>
          let dj := bfKeyData key acc.2
          (acc.1.set i (acc.1.getD i 0 ^^^ dj.1), dj.2)) acc).1, x < 2 ^ 32 := by
    intro ixs
    induction ixs with
    | nil => intro acc hacc; exact hacc
    | cons i rest ih =>
      intro acc hacc
      simp only [List.foldl]
      refine ih _ ?_
      intro x hx
      rcases List.mem_or_eq_of_mem_set hx with hx2 | hx2
      · exact hacc x hx2
      · subst hx2
        exact natXor_lt_two_pow (getD_lt_of_forall hacc (by norm_num) i)
          (bfKeyData_lt hkey acc.2)
  exact main (List.range 18) (P, 0) hP

theorem bfRegenP_wf {st : BlowfishState} (hst : PWF st) :
    PWF (bfRegenP st).1 ∧ (bfRegenP st).2.1 < 2 ^ 32 ∧ (bfRegenP st).2.2 < 2 ^ 32 := by
  rw [bfRegenP]
  have main : ∀ (ixs : List Nat) (acc : BlowfishState × Nat × Nat),
      PWF acc.1 → acc.2.1 < 2 ^ 32 → acc.2.2 < 2 ^ 32 →
      PWF (ixs.foldl
        (fun acc k =>
          let lr := bfEncryptBlock acc.1 acc.2.1 acc.2.2
          (⟨(acc.1.P.set (2 * k) lr.1).set (2 * k + 1) lr.2, acc.1.S⟩, lr.1, lr.2)) acc).1 ∧
      (ixs.foldl
        (fun acc k =>
          let lr := bfEncryptBlock acc.1 acc.2.1 acc.2.2
          (⟨(acc.1.P.set (2 * k) lr.1).set (2 * k + 1) lr.2, acc.1.S⟩, lr.1, lr.2)) acc).2.1 < 2 ^ 32 ∧
      (ixs.foldl
        (fun acc k =>
          let lr := bfEncryptBlock acc.1 acc.2.1 acc.2.2
          (⟨(acc.1.P.set (2 * k) lr.1).set (2 * k + 1) lr.2, acc.1.S⟩, lr.1, lr.2)) acc).2.2 < 2 ^ 32 := by
    intro ixs
    induction ixs with
    | nil => intro acc h1 h2 h3; exact ⟨h1, h2, h3⟩
    | cons k rest ih =>
      intro acc h1 h2 h3
      simp only [List.foldl]
      have henc := bfEncryptBlock_lt h1 h2 h3
      refine ih _ ?_ henc.1 henc.2
      intro x hx
      rcases List.mem_or_eq_of_mem_set hx with hx2 | hx2
      · rcases List.mem_or_eq_of_mem_set hx2 with hx3 | hx3
        · exact h1 x hx3
        · subst hx3; exact henc.1
      · subst hx2; exact henc.2
  exact main (List.range 9) (st, 0, 0) hst (by norm_num) (by norm_num)

theorem bfRegenS_P_eq (st : BlowfishState) (l r : Nat) :
    (bfRegenS st l r).P = st.P := by
  rw [bfRegenS]
  have inner : ∀ (ixs : List Nat) (i : Nat) (acc : BlowfishState × Nat × Nat),
      ((ixs.foldl
        (fun acc2 k =>
          let lr := bfEncryptBlock acc2.1 acc2.2.1 acc2.2.2
          (⟨acc2.1.P,
            acc2.1.S.set i (((acc2.1.S.getD i []).set (2 * k) lr.1).set (2 * k + 1) lr.2)⟩,
            lr.1, lr.2)) acc).1).P = acc.1.P := by
    intro ixs i
    induction ixs with
    | nil => intro acc; rfl
    | cons k rest ih =>
      intro acc
      simp only [List.foldl]
      rw [ih]
  have outer : ∀ (ixs : List Nat) (acc : BlowfishState × Nat × Nat),
      ((ixs.foldl
        (fun acc i =>
          (List.range 128).foldl
            (fun acc2 k =>
              let lr := bfEncryptBlock acc2.1 acc2.2.1 acc2.2.2
              (⟨acc2.1.P,
                acc2.1.S.set i (((acc2.1.S.getD i []).set (2 * k) lr.1).set (2 * k + 1) lr.2)⟩,
                lr.1, lr.2)) acc) acc).1).P = acc.1.P := by
    intro ixs
    induction ixs with
    | nil => intro acc; rfl
    | cons i rest ih =>
      intro acc
      rw [List.foldl_cons]
      rw [ih, inner]
  exact outer (List.range 4) (st, l, r)

theorem bfPInit_wf : ∀ x ∈ bfPInit, x < 2 ^ 32 := by decide

set_option maxHeartbeats 1000000 in
/-- The expanded key state of any valid byte key has 32-bit subkeys. -/
theorem bfExpandKey_wf {key : List Nat} (hkey : ∀ b ∈ key, b < 256) :
    PWF (bfExpandKey key) := by
  rw [bfExpandKey]
  intro x hx
  rw [bfRegenS_P_eq] at hx
  have h1 := bfXorPhase_wf hkey bfPInit_wf
  have h2 := @bfRegenP_wf ⟨bfXorPhase key bfPInit, bfSInit⟩ h1
  exact h2.1 x hx

/-! ## RC4Cipher (server/crypto/rc4.py) -/

/-- Model of the Python simultaneous swap `S[i], S[j] = S[j], S[i]`. -/
def listSwap (l : List Nat) (i j : Nat) : List Nat :=
  (l.set i (l.getD j 0)).set j (l.getD i 0)

/-- Model of `_ksa`: initialize S to 0..255, then for each i update the
running index j from S[i] and the cycled key byte and swap S[i] with S[j]. -/
def rc4Ksa (key : List Nat) : List Nat :=
  ((List.range 256).foldl
    (fun acc i =>
      let j := (acc.2 + acc.1.getD i 0 + key.getD (i % key.length) 0) % 256
      (listSwap acc.1 i j, j))
    (List.range 256, 0)).1

/-- Key validation of `RC4Cipher.__init__`: 5 to 256 bytes. -/
def rc4ValidKey (key : List Nat) : Prop :=
  5 ≤ key.length ∧ key.length ≤ 256 ∧ ∀ b ∈ key, b < 256

/-- Model of one `_prga` iteration: advance i and j, swap, and emit
S[(S[i] + S[j]) % 256]. -/
def rc4PrgaStep (s : Nat × Nat × List Nat) : (Nat × Nat × List Nat) × Nat :=
  let i := (s.1 + 1) % 256
  let j := (s.2.1 + s.2.2.getD i 0) % 256
  let S := listSwap s.2.2 i j
  ((i, j, S), S.getD ((S.getD i 0 + S.getD j 0) % 256) 0)

/-- Model of the encrypt loop: xor each data byte with the next keystream
byte, threading the generator state. -/
def rc4Process (s : Nat × Nat × List Nat) : List Nat → List Nat
  | [] => []
  | b :: rest => (b ^^^ (rc4PrgaStep s).2) :: rc4Process (rc4PrgaStep s).1 rest

/-- Model of `RC4Cipher.encrypt`: `_prga` operates on a private copy of the
scheduled table, with both generator indices starting at 0, so the
method reads `self.S` but never mutates it. -/
def rc4Encrypt (S : List Nat) (data : List Nat) : List Nat :=
  rc4Process (0, 0, S) data

/-- Model of `RC4Cipher.decrypt`: identical to encryption (xor stream). -/
def rc4Decrypt (S : List Nat) (data : List Nat) : List Nat :=
  rc4Encrypt S data

theorem rc4Process_involutive (s : Nat × Nat × List Nat) :
    ∀ data : List Nat, rc4Process s (rc4Process s data) = data := by
  intro data
  induction data generalizing s with
  | nil => rfl
  | cons b rest ih =>
    simp only [rc4Process]
    rw [Nat.xor_assoc, Nat.xor_self, Nat.xor_zero]
    rw [ih]

/-! ## Stateful method-call view (for determinism claims)

A Python method call both returns a value and leaves the object state
behind.  `BlowfishCipher.encrypt` only reads `self.P` and `self.S`;
`RC4Cipher.encrypt` reads `self.S` through the private copy taken by
`_prga`.  Neither mutates the object, so the call model returns the
state unchanged. -/

def bfEncryptCall (st : BlowfishState) (pt : List Nat) : List Nat × BlowfishState :=
  (blowfishEncrypt st pt, st)

def rc4EncryptCall (S : List Nat) (pt : List Nat) : List Nat × List Nat :=
  (rc4Encrypt S pt, S)

/-! ## Claim C2: decrypt inverts encrypt for both ciphers -/

/-- Claim C2: for every byte string and every valid key, Blowfish
decryption of a Blowfish encryption returns the plaintext (through PKCS#7
pad and unpad), and RC4 decryption of an RC4 encryption drawing its
keystream from the same scheduled table returns the plaintext. -/
theorem claimC2_decrypt_encrypt (bkey rkey pt1 pt2 : List Nat)
    (hbk : bfValidKey bkey) (_hrk : rc4ValidKey rkey)
    (hpt1 : ∀ b ∈ pt1, b < 256) :
    blowfishDecrypt (bfExpandKey bkey) (blowfishEncrypt (bfExpandKey bkey) pt1) =
      Except.ok pt1 ∧
    rc4Decrypt (rc4Ksa rkey) (rc4Encrypt (rc4Ksa rkey) pt2) = pt2 := by
  constructor
  · have hwf : PWF (bfExpandKey bkey) := bfExpandKey_wf hbk.2.2
    rw [blowfishDecrypt, blowfishEncrypt]
    rw [if_neg (by simp [processBlocks_length_mod])]
    rw [processBlocks_roundtrip hwf (padPKCS7 pt1 8) (padPKCS7_length_mod pt1)
      (padPKCS7_mem_lt hpt1)]
    exact unpadPKCS7_padPKCS7 pt1
  · exact rc4Process_involutive (0, 0, rc4Ksa rkey) pt2

theorem claimC2_decrypt_encrypt_witness :
    blowfishDecrypt (bfExpandKey [10, 20, 30, 40])
        (blowfishEncrypt (bfExpandKey [10, 20, 30, 40]) [72, 105, 33]) =
      Except.ok [72, 105, 33] ∧
    rc4Decrypt (rc4Ksa [1, 2, 3, 4, 5]) (rc4Encrypt (rc4Ksa [1, 2, 3, 4, 5]) [200, 7]) =
      [200, 7] :=
  claimC2_decrypt_encrypt [10, 20, 30, 40] [1, 2, 3, 4, 5] [72, 105, 33] [200, 7]
    ⟨by decide, by decide, by decide⟩ ⟨by decide, by decide, by decide⟩
    (by decide)

/-! ## Claim C6: encryption is deterministic for both ciphers -/

/-- Claim C6: two consecutive calls of `BlowfishCipher.encrypt` with the
same key state and plaintext produce identical ciphertext, and two
consecutive calls of `RC4Cipher.encrypt` on the same scheduled cipher
produce identical ciphertext (the second call sees the same table because
`_prga` draws from a private copy); hence identical plaintexts yield
identical ciphertexts under a fixed key. -/
theorem claimC6_deterministic (st : BlowfishState) (S : List Nat) (pt qt : List Nat) :
    (bfEncryptCall st pt).1 = (bfEncryptCall (bfEncryptCall st pt).2 pt).1 ∧
    (rc4EncryptCall S qt).1 = (rc4EncryptCall (rc4EncryptCall S qt).2 qt).1 ∧
    (pt = qt → blowfishEncrypt st pt = blowfishEncrypt st qt ∧
      rc4Encrypt S pt = rc4Encrypt S qt) := by
  refine ⟨rfl, rfl, ?_⟩
  intro h
  subst h
  exact ⟨rfl, rfl⟩

theorem claimC6_deterministic_witness :
    (bfEncryptCall ⟨bfPInit, bfSInit⟩ [1, 2]).1 =
      (bfEncryptCall (bfEncryptCall ⟨bfPInit, bfSInit⟩ [1, 2]).2 [1, 2]).1 ∧
    (rc4EncryptCall (List.range 256) [1, 2]).1 =
      (rc4EncryptCall (rc4EncryptCall (List.range 256) [1, 2]).2 [1, 2]).1 ∧
    (blowfishEncrypt ⟨bfPInit, bfSInit⟩ [1, 2] =
        blowfishEncrypt ⟨bfPInit, bfSInit⟩ [1, 2] ∧
      rc4Encrypt (List.range 256) [1, 2] = rc4Encrypt (List.range 256) [1, 2]) :=
  ⟨(claimC6_deterministic ⟨bfPInit, bfSInit⟩ (List.range 256) [1, 2] [1, 2]).1,
   (claimC6_deterministic ⟨bfPInit, bfSInit⟩ (List.range 256) [1, 2] [1, 2]).2.1,
   (claimC6_deterministic ⟨bfPInit, bfSInit⟩ (List.range 256) [1, 2] [1, 2]).2.2 rfl⟩

/-! ## Claim C7: PKCS#7 unpadding rejects exactly the invalid paddings -/

/-- Claim C7: `_unpad_pkcs7` raises exactly when the data is empty, the
final byte (the padding length) is 0, the padding length exceeds the
data length, or one of the last padding-length bytes differs from the
padding length; otherwise it returns the data with the padding removed. -/
theorem claimC7_unpad_spec (data : List Nat) :
    ((∃ e, unpadPKCS7 data = Except.error e) ↔
      (data = [] ∨ data.getD (data.length - 1) 0 = 0 ∨
        data.getD (data.length - 1) 0 > data.length ∨
        ∃ i < data.getD (data.length - 1) 0,
          data.getD (data.length - 1 - i) 0 ≠ data.getD (data.length - 1) 0)) ∧
    (∀ res, unpadPKCS7 data = Except.ok res →
      res = data.take (data.length - data.getD (data.length - 1) 0)) := by
  have hone : ∀ i, data.length - (i + 1) = data.length - 1 - i := by
    intro i; omega
  by_cases h0 : data.length = 0
  · have hnil : data = [] := List.length_eq_zero.mp h0
    subst hnil
    constructor
    · simp [unpadPKCS7]
    · intro res hres
      simp [unpadPKCS7] at hres
  · by_cases h1 : data.getD (data.length - 1) 0 > data.length ∨
        data.getD (data.length - 1) 0 = 0
    · constructor
      · constructor
        · intro _
          rcases h1 with h1 | h1
          · exact Or.inr (Or.inr (Or.inl h1))
          · exact Or.inr (Or.inl h1)
        · intro _
          refine ⟨"incorrect padding", ?_⟩
          rw [unpadPKCS7, if_neg h0, if_pos h1]
      · intro res hres
        rw [unpadPKCS7, if_neg h0, if_pos h1] at hres
        exact absurd hres (by simp)
    · by_cases h2 : (List.range (data.getD (data.length - 1) 0)).all
          (fun i => data.getD (data.length - (i + 1)) 0 == data.getD (data.length - 1) 0)
      · have hok : unpadPKCS7 data =
            Except.ok (data.take (data.length - data.getD (data.length - 1) 0)) := by
          rw [unpadPKCS7, if_neg h0, if_neg h1, if_pos h2]
        constructor
        · constructor
          · intro ⟨e, he⟩
            rw [hok] at he
            exact absurd he (by simp)
          · intro hcond
            rcases hcond with hc | hc | hc | hc
            · exact absurd (congrArg List.length hc) (by simpa using h0)
            · exact absurd (Or.inr hc) h1
            · exact absurd (Or.inl hc) h1
            · rcases hc with ⟨i, hi, hne⟩
              rw [List.all_eq_true] at h2
              have := h2 i (List.mem_range.mpr hi)
              rw [beq_iff_eq, hone i] at this
              exact absurd this hne
        · intro res hres
          rw [hok] at hres
          exact (Except.ok.inj hres).symm
      · have herr : unpadPKCS7 data = Except.error "incorrect pkcs7 padding" := by
          rw [unpadPKCS7, if_neg h0, if_neg h1, if_neg h2]
        constructor
        · constructor
          · intro _
            rw [List.all_eq_true] at h2
            push_neg at h2
            rcases h2 with ⟨i, hi, hne⟩
            rw [List.mem_range] at hi
            refine Or.inr (Or.inr (Or.inr ⟨i, hi, ?_⟩))
            rw [← hone i]
            simpa using hne
          · intro _
            exact ⟨"incorrect pkcs7 padding", herr⟩
        · intro res hres
          rw [herr] at hres
          exact absurd hres (by simp)

theorem claimC7_unpad_spec_witness :
    (∃ e, unpadPKCS7 [0] = Except.error e) ∧
    (∃ e, unpadPKCS7 [9] = Except.error e) ∧
    (∃ e, unpadPKCS7 [5, 3, 3, 2] = Except.error e) ∧
    ([5] : List Nat) = [5, 3, 3, 3].take
      ([5, 3, 3, 3].length - [5, 3, 3, 3].getD ([5, 3, 3, 3].length - 1) 0) :=
  ⟨(claimC7_unpad_spec [0]).1.mpr (by decide),
   (claimC7_unpad_spec [9]).1.mpr (by decide),
   (claimC7_unpad_spec [5, 3, 3, 2]).1.mpr (by decide),
   (claimC7_unpad_spec [5, 3, 3, 3]).2 [5] rfl⟩

/-! ## Encoding collaborators used by the wrapper (server/crypto/manager.py)

The manager converts field strings to UTF-8 bytes, encrypts, and
base64-encodes the result for storage in TEXT columns; decryption runs
the pipeline backwards and can fail at each stage.  These are models of
the Python standard-library collaborators `str.encode`, `str.decode`
and `base64`; strings are handled through their character codes. -/

/-- Model of `str.encode` with the ascii codec: fails on a non-ASCII char. -/
def asciiEncode (s : String) : Except String (List Nat) :=
  if s.data.all (fun c => c.toNat < 128) then .ok (s.data.map (fun c => c.toNat))
  else .error "ascii codec cannot encode character"

/-- Value of a standard base64 alphabet character code, if any. -/
def b64CharVal (c : Nat) : Option Nat :=
  if 65 ≤ c ∧ c ≤ 90 then some (c - 65)
  else if 97 ≤ c ∧ c ≤ 122 then some (c - 71)
  else if 48 ≤ c ∧ c ≤ 57 then some (c + 4)
  else if c = 43 then some 62
  else if c = 47 then some 63
  else none

/-- Character code of a base64 digit value (0..63). -/
def b64CharOf (v : Nat) : Nat :=
  if v < 26 then 65 + v
  else if v < 52 then 97 + (v - 26)
  else if v < 62 then 48 + (v - 52)
  else if v = 62 then 43
  else 47

/-- Model of `base64.b64encode` on byte lists, producing character codes. -/
def b64encodeBytes : List Nat → List Nat
  | b0 :: b1 :: b2 :: rest =>
    let n := (b0 % 256) * 65536 + (b1 % 256) * 256 + b2 % 256
    b64CharOf (n / 262144 % 64) :: b64CharOf (n / 4096 % 64) ::
      b64CharOf (n / 64 % 64) :: b64CharOf (n % 64) :: b64encodeBytes rest
  | [b0, b1] =>
    let n := (b0 % 256) * 65536 + (b1 % 256) * 256
    [b64CharOf (n / 262144 % 64), b64CharOf (n / 4096 % 64), b64CharOf (n / 64 % 64), 61]
  | [b0] =>
    let n := (b0 % 256) * 65536
    [b64CharOf (n / 262144 % 64), b64CharOf (n / 4096 % 64), 61, 61]
  | [] => []

/-- Grouped base64 decoding on already-filtered character codes: four
characters yield three bytes, with the pad character 61 allowed only at
the end; anything else is a padding error. -/
def b64DecodeGroups : List Nat → Except String (List Nat)
  | [] => .ok []
  | c0 :: c1 :: c2 :: c3 :: rest =>
    match b64CharVal c0, b64CharVal c1 with
    | some v0, some v1 =>
      if c2 = 61 then
        if c3 = 61 ∧ rest = [] then .ok [v0 * 4 + v1 / 16]
        else .error "incorrect padding"
      else
        match b64CharVal c2 with
        | some v2 =>
          if c3 = 61 then
            if rest = [] then .ok [v0 * 4 + v1 / 16, v1 % 16 * 16 + v2 / 4]
            else .error "incorrect padding"
          else
            match b64CharVal c3 with
            | some v3 =>
              (fun bs => (v0 * 4 + v1 / 16) :: (v1 % 16 * 16 + v2 / 4) ::
                (v2 % 4 * 64 + v3) :: bs) <$> b64DecodeGroups rest
            | none => .error "invalid base64 character"
        | none => .error "invalid base64 character"
    | _, _ => .error "invalid base64 character"
  | _ => .error "incorrect padding"

/-- Model of `base64.b64decode` in its default liberal mode: characters
outside the alphabet (other than the pad character) are discarded before
grouped decoding. -/
def b64decodeBytes (input : List Nat) : Except String (List Nat) :=
  b64DecodeGroups (input.filter (fun c => (b64CharVal c).isSome || c == 61))

/-- UTF-8 encoding of one code point. -/
def utf8EncodeChar (c : Nat) : List Nat :=
  if c < 128 then [c]
  else if c < 2048 then [192 + c / 64, 128 + c % 64]
  else if c < 65536 then [224 + c / 4096, 128 + c / 64 % 64, 128 + c % 64]
  else [240 + c / 262144, 128 + c / 4096 % 64, 128 + c / 64 % 64, 128 + c % 64]

/-- Model of `str.encode` with the utf-8 codec (total). -/
def utf8Encode (s : String) : List Nat :=
  (s.data.map (fun c => utf8EncodeChar c.toNat)).flatten

/-- Model of `bytes.decode` with the utf-8 codec: rejects malformed,
overlong, surrogate and out-of-range sequences; yields code points. -/
def utf8Decode : List Nat → Except String (List Nat)
  | [] => .ok []
  | b :: rest =>
    if b < 128 then (fun cs => b :: cs) <$> utf8Decode rest
    else if b < 194 then .error "invalid utf8 start byte"
    else if b < 224 then
      match rest with
      | b1 :: rest2 =>
        if 128 ≤ b1 ∧ b1 < 192 then
          (fun cs => ((b - 192) * 64 + (b1 - 128)) :: cs) <$> utf8Decode rest2
        else .error "invalid utf8 continuation byte"
      | [] => .error "unexpected end of utf8 data"
    else if b < 240 then
      match rest with
      | b1 :: b2 :: rest2 =>
        if (128 ≤ b1 ∧ b1 < 192) ∧ (128 ≤ b2 ∧ b2 < 192) then
          let cp := (b - 224) * 4096 + (b1 - 128) * 64 + (b2 - 128)
          if cp < 2048 ∨ (55296 ≤ cp ∧ cp ≤ 57343) then .error "invalid utf8 code point"
          else (fun cs => cp :: cs) <$> utf8Decode rest2
        else .error "invalid utf8 continuation byte"
      | _ => .error "unexpected end of utf8 data"
    else if b < 245 then
      match rest with
      | b1 :: b2 :: b3 :: rest2 =>
        if (128 ≤ b1 ∧ b1 < 192) ∧ (128 ≤ b2 ∧ b2 < 192) ∧ (128 ≤ b3 ∧ b3 < 192) then
          let cp := (b - 240) * 262144 + (b1 - 128) * 4096 + (b2 - 128) * 64 + (b3 - 128)
          if cp < 65536 ∨ 1114111 < cp then .error "invalid utf8 code point"
          else (fun cs => cp :: cs) <$> utf8Decode rest2
        else .error "invalid utf8 continuation byte"
      | _ => .error "unexpected end of utf8 data"
    else .error "invalid utf8 start byte"

/-- Conversion of character codes to a string. -/
def natsToString (l : List Nat) : String :=
  String.mk (l.map Char.ofNat)

/-- Decoding bytes to a string via the UTF-8 model. -/
def utf8DecodeString (bytes : List Nat) : Except String String :=
  (utf8Decode bytes).map natsToString

/-! ## CryptoManager (server/crypto/manager.py)

The manager holds a Blowfish cipher for usernames and an RC4 cipher for
serials.  Empty fields short-circuit before any cipher call.  On the
decrypt paths any stage failure is re-raised as a wrapped error; the
safe variants swallow it and return the stored value unchanged. -/

structure CryptoManager where
  bf : BlowfishState
  rc4S : List Nat

/-- Model of `encrypt_username`: UTF-8 encode, Blowfish encrypt, base64
encode; an empty username is returned unchanged. -/
def CryptoManager.encryptUsername (cm : CryptoManager) (username : String) : String :=
  if username = "" then username
  else natsToString (b64encodeBytes (blowfishEncrypt cm.bf (utf8Encode username)))

/-- Model of `decrypt_username`: base64 decode, Blowfish decrypt, UTF-8
decode; an empty value is returned unchanged; any stage failure is
wrapped and propagated. -/
def CryptoManager.decryptUsername (cm : CryptoManager) (encrypted : String) :
    Except String String :=
  if encrypted = "" then .ok encrypted
  else
    match (do
      let raw ← asciiEncode encrypted
      let ct ← b64decodeBytes raw
      let pt ← blowfishDecrypt cm.bf ct
      utf8DecodeString pt : Except String String) with
    | .ok v => .ok v
    | .error e => .error ("username decrypt error: " ++ e)

/-- Model of `encrypt_serial`: UTF-8 encode, RC4 encrypt, base64 encode;
an empty serial is returned unchanged. -/
def CryptoManager.encryptSerial (cm : CryptoManager) (serial : String) : String :=
  if serial = "" then serial
  else natsToString (b64encodeBytes (rc4Encrypt cm.rc4S (utf8Encode serial)))

/-- Model of `decrypt_serial`: base64 decode, RC4 decrypt, UTF-8 decode;
an empty value is returned unchanged; any stage failure is wrapped and
propagated. -/
def CryptoManager.decryptSerial (cm : CryptoManager) (encrypted : String) :
    Except String String :=
  if encrypted = "" then .ok encrypted
  else
    match (do
      let raw ← asciiEncode encrypted
      let ct ← b64decodeBytes raw
      let pt := rc4Decrypt cm.rc4S ct
      utf8DecodeString pt : Except String String) with
    | .ok v => .ok v
    | .error e => .error ("serial decrypt error: " ++ e)

/-- Model of `safe_decrypt_username`: catch any failure and return the
stored value unchanged. -/
def CryptoManager.safeDecryptUsername (cm : CryptoManager) (encrypted : String) : String :=
  match cm.decryptUsername encrypted with
  | .ok v => v
  | .error _ => encrypted

/-- Model of `safe_decrypt_serial`: catch any failure and return the
stored value unchanged. -/
def CryptoManager.safeDecryptSerial (cm : CryptoManager) (encrypted : String) : String :=
  match cm.decryptSerial encrypted with
  | .ok v => v
  | .error _ => encrypted

/-! ## Claim C8: safe decrypt never raises and falls back to the input -/

/-- Claim C8: the safe decrypt variants are total; whenever the strict
decrypt fails (the strict variant propagates an error) they return the
input unchanged, and whenever it succeeds they return its result. -/
theorem claimC8_safe_decrypt (cm : CryptoManager) (s : String) :
    ((∃ e, cm.decryptUsername s = Except.error e) → cm.safeDecryptUsername s = s) ∧
    (∀ v, cm.decryptUsername s = Except.ok v → cm.safeDecryptUsername s = v) ∧
    ((∃ e, cm.decryptSerial s = Except.error e) → cm.safeDecryptSerial s = s) ∧
    (∀ v, cm.decryptSerial s = Except.ok v → cm.safeDecryptSerial s = v) := by
  refine ⟨?_, ?_, ?_, ?_⟩
  · intro ⟨e, he⟩
    rw [CryptoManager.safeDecryptUsername, he]
  · intro v hv
    rw [CryptoManager.safeDecryptUsername, hv]
  · intro ⟨e, he⟩
    rw [CryptoManager.safeDecryptSerial, he]
  · intro v hv
    rw [CryptoManager.safeDecryptSerial, hv]

/-- Concrete manager state used by the witnesses. -/
def cmTest : CryptoManager := ⟨bfExpandKey [10, 20, 30, 40], rc4Ksa [1, 2, 3, 4, 5]⟩

theorem claimC8_safe_decrypt_witness :
    cmTest.safeDecryptUsername "A" = "A" ∧
    cmTest.safeDecryptUsername "" = "" ∧
    cmTest.safeDecryptSerial "A" = "A" ∧
    cmTest.safeDecryptSerial "" = "" :=
  ⟨(claimC8_safe_decrypt cmTest "A").1 ⟨"username decrypt error: incorrect padding", rfl⟩,
   (claimC8_safe_decrypt cmTest "").2.1 "" rfl,
   (claimC8_safe_decrypt cmTest "A").2.2.1 ⟨"serial decrypt error: incorrect padding", rfl⟩,
   (claimC8_safe_decrypt cmTest "").2.2.2 "" rfl⟩

/-! ## Claim C10: empty fields pass through the manager unchanged -/

/-- Claim C10: every manager field operation returns an empty input
unchanged: the empty-string guard short-circuits before the cipher or
base64 is reached. -/
theorem claimC10_empty_passthrough (cm : CryptoManager) :
    cm.encryptUsername "" = "" ∧ cm.decryptUsername "" = Except.ok "" ∧
    cm.encryptSerial "" = "" ∧ cm.decryptSerial "" = Except.ok "" :=
  ⟨rfl, rfl, rfl, rfl⟩

/-! ## PolicyClient (client/monitor.py)

The client resolves a per-device policy by calling the server's
`/api/devices/check` endpoint with up to `retry_attempts` tries.  Each
try either fails at the network level, returns a non-200 status, or
returns 200 with an optional status field.  The environment (the wire)
is modelled as the list of outcomes the loop would observe; pending
request bookkeeping is the `_pending_requests` dict keyed by
`username:vid:pid:serial`. -/

/-- Outcome of one HTTP POST to `/api/devices/check`. -/
inductive CheckAttempt where
  | netFailure
  | httpReply (code : Nat) (status : Option String)
  deriving Repr, DecidableEq

/-- Failed attempt in the sense of the retry loop: a network error
(`requests.exceptions.RequestException`) or a non-200 status code. -/
def attemptFailed : CheckAttempt → Prop
  | .netFailure => True
  | .httpReply code _ => code ≠ 200

instance (a : CheckAttempt) : Decidable (attemptFailed a) :=
  match a with
  | .netFailure => isTrue trivial
  | .httpReply code st =>
    if h : code = 200 then isFalse (by simp [attemptFailed, h])
    else isTrue (by simp [attemptFailed, h])

/-- Client-side pending request map `_pending_requests`. -/
def PendingMap := List (String × Nat)

/-- Membership test of the pending map (the `in` operator on the dict). -/
def pendingContains (p : PendingMap) (key : String) : Bool :=
  (p : List (String × Nat)).any (fun kv => kv.1 == key)

/-- Deletion from the pending map (the `del` statement). -/
def pendingErase (p : PendingMap) (key : String) : PendingMap :=
  (p : List (String × Nat)).filter (fun kv => kv.1 != key)

/-- Insertion into the pending map (dict assignment). -/
def pendingInsert (p : PendingMap) (key : String) (v : Nat) : PendingMap :=
  (key, v) :: pendingErase p key

/-- Model of the retry loop body of `check_device_permission_server`: walk
the attempt outcomes; a 200 reply returns its status field (defaulting to
the string unknown) after clearing the pending entry on a final status;
anything else retries; exhaustion returns no result. -/
def checkLoop (deviceKey : String) : List CheckAttempt → PendingMap → Option String × PendingMap
  | [], p => (none, p)
  | .netFailure :: rest, p => checkLoop deviceKey rest p
  | .httpReply code status :: rest, p =>
    if code = 200 then
      let st := status.getD "unknown"
      let p2 := if (st = "allowed" ∨ st = "denied") ∧ pendingContains p deviceKey then
          pendingErase p deviceKey
        else p
      (some st, p2)
    else checkLoop deviceKey rest p

/-- Configuration subset used by the policy check (from config.yaml with
defaults; `retry_delay` and `timeout` have no functional effect here). -/
structure ClientConfig where
  retryAttempts : Nat
  retryDelay : Nat
  timeout : Nat

/-- Model of `check_device_permission_server`: at most `retry_attempts`
tries of the check endpoint. -/
def checkDevicePermissionServer (cfg : ClientConfig) (deviceKey : String)
    (attempts : List CheckAttempt) (p : PendingMap) : Option String × PendingMap :=
  checkLoop deviceKey (attempts.take cfg.retryAttempts) p

/-- Outcome of the single POST of `create_device_request`: the request id
on a 200 reply, nothing on failure. -/
def CreateReqOutcome := Option Nat

/-- Model of `create_device_request`: an existing pending entry returns its
stored id without calling the server; otherwise a successful call stores
and returns the new id, and a failed call returns nothing. -/
def createDeviceRequest (deviceKey : String) (outcome : CreateReqOutcome)
    (p : PendingMap) : Option Nat × PendingMap :=
  if pendingContains p deviceKey then
    ((p : List (String × Nat)).find? (fun kv => kv.1 == deviceKey) |>.map Prod.snd, p)
  else
    match outcome with
    | some rid => (some rid, pendingInsert p deviceKey rid)
    | none => (none, p)

/-- Model of `check_device_policy`: resolve through the server; the string
unknown triggers `create_device_request`; an exhausted retry loop (no
server answer) resolves to the string deny. -/
def checkDevicePolicy (cfg : ClientConfig) (deviceKey : String)
    (attempts : List CheckAttempt) (createOutcome : CreateReqOutcome)
    (p : PendingMap) : String × PendingMap :=
  match checkDevicePermissionServer cfg deviceKey attempts p with
  | (some st, p2) =>
    if st = "unknown" then ("unknown", (createDeviceRequest deviceKey createOutcome p2).2)
    else (st, p2)
  | (none, p2) => ("deny", p2)

/-- Model of the device-event dispatch in `monitor_loop`: `mount_device`
is invoked only when the resolved policy is the string allowed. -/
def mountInvoked (policy : String) : Bool := policy == "allowed"

/-! ## Claim C1: exhausted retries resolve to deny, with no cached answer -/

/-- Claim C1: whenever every one of the configured `retry_attempts` tries
of the check endpoint fails, `check_device_policy` resolves to deny and
the device is not mounted, whatever the pending bookkeeping holds — in
particular the result is the same for every pending map, so no earlier
favorable answer is reused. -/
theorem claimC1_fail_secure (cfg : ClientConfig) (deviceKey : String)
    (attempts : List CheckAttempt) (createOutcome : CreateReqOutcome)
    (hfail : ∀ a ∈ attempts.take cfg.retryAttempts, attemptFailed a) :
    (∀ p : PendingMap,
      (checkDevicePolicy cfg deviceKey attempts createOutcome p).1 = "deny" ∧
      mountInvoked (checkDevicePolicy cfg deviceKey attempts createOutcome p).1 = false) ∧
    (∀ p q : PendingMap,
      (checkDevicePolicy cfg deviceKey attempts createOutcome p).1 =
        (checkDevicePolicy cfg deviceKey attempts createOutcome q).1) := by
  have hnone : ∀ (l : List CheckAttempt) (p : PendingMap),
      (∀ a ∈ l, attemptFailed a) → checkLoop deviceKey l p = (none, p) := by
    intro l
    induction l with
    | nil => intro p _; rfl
    | cons a rest ih =>
      intro p hl
      cases a with
      | netFailure =>
        rw [checkLoop]
        exact ih p (fun x hx => hl x (List.mem_cons_of_mem _ hx))
      | httpReply code status =>
        have hcode : code ≠ 200 := hl (.httpReply code status) (List.mem_cons_self _ _)
        rw [checkLoop, if_neg hcode]
        exact ih p (fun x hx => hl x (List.mem_cons_of_mem _ hx))
  have hmain : ∀ p : PendingMap,
      checkDevicePolicy cfg deviceKey attempts createOutcome p = ("deny", p) := by
    intro p
    rw [checkDevicePolicy, checkDevicePermissionServer, hnone _ p hfail]
  constructor
  · intro p
    rw [hmain p]
    exact ⟨rfl, rfl⟩
  · intro p q
    rw [hmain p, hmain q]

theorem claimC1_fail_secure_witness :
    (∀ p : PendingMap,
      (checkDevicePolicy ⟨3, 5, 10⟩ "alice:0781:5571:ABC123"
        [.netFailure, .httpReply 500 none, .netFailure, .httpReply 200 (some "allowed")]
        (some 7) p).1 = "deny" ∧
      mountInvoked (checkDevicePolicy ⟨3, 5, 10⟩ "alice:0781:5571:ABC123"
        [.netFailure, .httpReply 500 none, .netFailure, .httpReply 200 (some "allowed")]
        (some 7) p).1 = false) ∧
    (∀ p q : PendingMap,
      (checkDevicePolicy ⟨3, 5, 10⟩ "alice:0781:5571:ABC123"
        [.netFailure, .httpReply 500 none, .netFailure, .httpReply 200 (some "allowed")]
        (some 7) p).1 =
      (checkDevicePolicy ⟨3, 5, 10⟩ "alice:0781:5571:ABC123"
        [.netFailure, .httpReply 500 none, .netFailure, .httpReply 200 (some "allowed")]
        (some 7) q).1) :=
  claimC1_fail_secure ⟨3, 5, 10⟩ "alice:0781:5571:ABC123"
    [.netFailure, .httpReply 500 none, .netFailure, .httpReply 200 (some "allowed")]
    (some 7) (by decide)

/-! ## PermissionStore / RequestBroker (server/database/models.py, server/app.py)

Rows model the SQLite tables of database.py; `id` columns are
AUTOINCREMENT, modelled with explicit next-id counters.  Timestamps
(`datetime.now().isoformat()`) are an opaque clock value passed in by
the caller.  Each model holds an optional crypto manager
(`BaseModel.__init__`); the deployed wiring (`Database.__init__`)
passes none, in which case fields are stored as given.  The manager
functions are modelled as total string maps, matching that wiring and
the safe decrypt variants. -/

structure CryptoFuns where
  encU : String → String
  decU : String → String
  encS : String → String
  decS : String → String

/-- Optional crypto manager of `BaseModel`. -/
def CryptoOpt := Option CryptoFuns

/-- Encryption applied to a username if a manager is present. -/
def cryptoEncU : CryptoOpt → String → String
  | some f, s => f.encU s
  | none, s => s

/-- Decryption applied to a username if a manager is present. -/
def cryptoDecU : CryptoOpt → String → String
  | some f, s => f.decU s
  | none, s => s

/-- Encryption applied to a serial if a manager is present. -/
def cryptoEncS : CryptoOpt → String → String
  | some f, s => f.encS s
  | none, s => s

/-- Decryption applied to a serial if a manager is present. -/
def cryptoDecS : CryptoOpt → String → String
  | some f, s => f.decS s
  | none, s => s

structure UserRow where
  id : Nat
  username : String
  createdAt : Nat
  deriving Repr, DecidableEq

structure DeviceRow where
  id : Nat
  vid : String
  pid : String
  serial : String
  name : String
  description : String
  createdAt : Nat
  deriving Repr, DecidableEq

structure PermissionRow where
  id : Nat
  userId : Nat
  deviceId : Nat
  granted : Bool
  createdAt : Nat
  deriving Repr, DecidableEq

structure RequestRow where
  id : Nat
  userId : Nat
  deviceId : Nat
  deviceInfo : String
  status : String
  createdAt : Nat
  processedAt : Option Nat
  deriving Repr, DecidableEq

structure DB where
  users : List UserRow
  devices : List DeviceRow
  permissions : List PermissionRow
  requests : List RequestRow
  nextUserId : Nat
  nextDeviceId : Nat
  nextPermissionId : Nat
  nextRequestId : Nat
  deriving Repr, DecidableEq

namespace User

/-- Model of `User.create`: encrypt the username and INSERT; the UNIQUE
constraint on users.username makes a duplicate insert raise
sqlite3.IntegrityError, modelled as an error.  Returns lastrowid. -/
def create (crypto : CryptoOpt) (db : DB) (username : String) (now : Nat) :
    Except String (Nat × DB) :=
  let encrypted := cryptoEncU crypto username
  if db.users.any (fun u => u.username == encrypted) then
    .error "UNIQUE constraint failed: users.username"
  else
    .ok (db.nextUserId,
      { db with users := db.users ++ [⟨db.nextUserId, encrypted, now⟩],
                nextUserId := db.nextUserId + 1 })

/-- Model of `User.get_by_username`: look up by the encrypted name and
decrypt the stored name before returning. -/
def getByUsername (crypto : CryptoOpt) (db : DB) (username : String) : Option UserRow :=
  (db.users.find? (fun u => u.username == cryptoEncU crypto username)).map
    (fun u => { u with username := cryptoDecU crypto u.username })

/-- Model of `User.get_by_id`. -/
def getById (crypto : CryptoOpt) (db : DB) (uid : Nat) : Option UserRow :=
  (db.users.find? (fun u => u.id == uid)).map
    (fun u => { u with username := cryptoDecU crypto u.username })

/-- Model of `User.get_or_create` with the concurrency of §5 made
explicit: the lookup reads one snapshot of the shared database, and the
insert runs against the database after any concurrently committed
writes (`interleaved`).  The source has no try/except here, so a
constraint error from the insert propagates.  The sequential behaviour
is `interleaved = id`. -/
def getOrCreateRaced (crypto : CryptoOpt) (db : DB) (username : String) (now : Nat)
    (interleaved : DB → DB) : Except String (UserRow × DB) :=
  match getByUsername crypto db username with
  | some u => .ok (u, db)
  | none =>
    match create crypto (interleaved db) username now with
    | .error e => .error e
    | .ok (uid, db2) =>
      match getById crypto db2 uid with
      | some u => .ok (u, db2)
      | none => .error "could not create or fetch user"

/-- Model of `User.get_or_create` as executed sequentially. -/
def getOrCreate (crypto : CryptoOpt) (db : DB) (username : String) (now : Nat) :
    Except String (UserRow × DB) :=
  getOrCreateRaced crypto db username now id

end User

namespace Device

/-- Model of `Device.create`: encrypt the serial and INSERT; the UNIQUE
constraint on (vid, pid, serial) makes a duplicate insert raise
sqlite3.IntegrityError, modelled as an error.  Returns lastrowid. -/
def create (crypto : CryptoOpt) (db : DB) (vid pid serial name description : String)
    (now : Nat) : Except String (Nat × DB) :=
  let encrypted := cryptoEncS crypto serial
  if db.devices.any (fun d => d.vid == vid && d.pid == pid && d.serial == encrypted) then
    .error "UNIQUE constraint failed: devices.vid, devices.pid, devices.serial"
  else
    .ok (db.nextDeviceId,
      { db with devices := db.devices ++
          [⟨db.nextDeviceId, vid, pid, encrypted, name, description, now⟩],
                nextDeviceId := db.nextDeviceId + 1 })

/-- Model of `Device.get_by_identifiers`: look up by vid, pid and the
encrypted serial; decrypt the stored serial before returning. -/
def getByIdentifiers (crypto : CryptoOpt) (db : DB) (vid pid serial : String) :
    Option DeviceRow :=
  (db.devices.find? (fun d =>
      d.vid == vid && d.pid == pid && d.serial == cryptoEncS crypto serial)).map
    (fun d => { d with serial := cryptoDecS crypto d.serial })

/-- Model of `Device.get_by_id`. -/
def getById (crypto : CryptoOpt) (db : DB) (did : Nat) : Option DeviceRow :=
  (db.devices.find? (fun d => d.id == did)).map
    (fun d => { d with serial := cryptoDecS crypto d.serial })

/-- Model of `Device.get_or_create` with the concurrency of §5 made
explicit, as for `User.getOrCreateRaced`; no try/except in the source. -/
def getOrCreateRaced (crypto : CryptoOpt) (db : DB) (vid pid serial name description : String)
    (now : Nat) (interleaved : DB → DB) : Except String (DeviceRow × DB) :=
  match getByIdentifiers crypto db vid pid serial with
  | some d => .ok (d, db)
  | none =>
    match create crypto (interleaved db) vid pid serial name description now with
    | .error e => .error e
    | .ok (did, db2) =>
      match getById crypto db2 did with
      | some d => .ok (d, db2)
      | none => .error "could not create or fetch device"

/-- Model of `Device.get_or_create` as executed sequentially. -/
def getOrCreate (crypto : CryptoOpt) (db : DB) (vid pid serial name description : String)
    (now : Nat) : Except String (DeviceRow × DB) :=
  getOrCreateRaced crypto db vid pid serial name description now id

end Device

namespace Permission

/-- Row predicate of the (user_id, device_id) WHERE clauses. -/
def forPair (uid did : Nat) (p : PermissionRow) : Bool :=
  p.userId == uid && p.deviceId == did

/-- Model of `Permission.create`: INSERT a grant row (only reached by
`set_permission` when no row exists for the pair, so the UNIQUE
constraint cannot trip there).  Returns lastrowid. -/
def create (db : DB) (uid did : Nat) (granted : Bool) (now : Nat) : Nat × DB :=
  (db.nextPermissionId,
   { db with permissions := db.permissions ++ [⟨db.nextPermissionId, uid, did, granted, now⟩],
             nextPermissionId := db.nextPermissionId + 1 })

/-- Model of `Permission.check_permission`: the stored grant of the pair,
or nothing when no row exists. -/
def checkPermission (db : DB) (uid did : Nat) : Option Bool :=
  (db.permissions.find? (forPair uid did)).map (fun p => p.granted)

/-- Model of `Permission.set_permission`: UPDATE the grant in place when a
row for the pair exists, otherwise INSERT a new row (upsert). -/
def setPermission (db : DB) (uid did : Nat) (granted : Bool) (now : Nat) : DB :=
  if db.permissions.any (forPair uid did) then
    { db with permissions := db.permissions.map (fun p =>
        if forPair uid did p then { p with granted := granted } else p) }
  else
    (create db uid did granted now).2

end Permission

namespace Request

/-- Model of `Request.create`: INSERT a new row with status pending and no
processed time.  Returns lastrowid. -/
def create (db : DB) (uid did : Nat) (deviceInfo : String) (now : Nat) : Nat × DB :=
  (db.nextRequestId,
   { db with requests := db.requests ++
       [⟨db.nextRequestId, uid, did, deviceInfo, "pending", now, none⟩],
             nextRequestId := db.nextRequestId + 1 })

/-- Joined row returned by `Request.get_by_id` (requests JOIN users JOIN
devices, with username and serial decrypted). -/
structure Joined where
  id : Nat
  userId : Nat
  deviceId : Nat
  deviceInfo : String
  status : String
  createdAt : Nat
  processedAt : Option Nat
  username : String
  vid : String
  pid : String
  serial : String
  name : String
  description : String
  deriving Repr, DecidableEq

/-- Model of `Request.get_by_id`: the inner joins return nothing unless
the request row and its user and device rows all exist. -/
def getById (crypto : CryptoOpt) (db : DB) (rid : Nat) : Option Joined :=
  (db.requests.find? (fun r => r.id == rid)).bind fun r =>
  (db.users.find? (fun u => u.id == r.userId)).bind fun u =>
  (db.devices.find? (fun d => d.id == r.deviceId)).map fun d =>
    ⟨r.id, r.userId, r.deviceId, r.deviceInfo, r.status, r.createdAt, r.processedAt,
     cryptoDecU crypto u.username, d.vid, d.pid, cryptoDecS crypto d.serial,
     d.name, d.description⟩

/-- Model of `Request.update_status`: set status and processed_at on every
row with the given id. -/
def updateStatus (db : DB) (rid : Nat) (status : String) (now : Nat) : DB :=
  { db with requests := db.requests.map (fun r =>
      if r.id == rid then { r with status := status, processedAt := some now } else r) }

/-- Model of `Request.approve`. -/
def approve (db : DB) (rid : Nat) (now : Nat) : DB := updateStatus db rid "approved" now

/-- Model of `Request.deny`. -/
def deny (db : DB) (rid : Nat) (now : Nat) : DB := updateStatus db rid "denied" now

/-- Row predicate of `Request.check_existing`: pending row of the pair. -/
def isPendingFor (uid did : Nat) (r : RequestRow) : Bool :=
  r.userId == uid && r.deviceId == did && r.status == "pending"

/-- Pick of ORDER BY created_at DESC LIMIT 1 over a result set (on equal
timestamps SQLite leaves the choice open; the model keeps the first). -/
def pickLatest (acc : Option RequestRow) (r : RequestRow) : Option RequestRow :=
  match acc with
  | none => some r
  | some b => if b.createdAt < r.createdAt then some r else some b

/-- Model of `Request.check_existing`: the most recent pending request of
the pair, if any. -/
def checkExisting (db : DB) (uid did : Nat) : Option RequestRow :=
  (db.requests.filter (isPendingFor uid did)).foldl pickLatest none

end Request

/-! ### HTTP endpoints (server/app.py)

Admin-session checks and socket emits have no effect on the store and
are outside the model; each endpoint returns its JSON-visible result
together with the database it leaves behind (a Python exception maps to
an error result carrying the state already committed). -/

/-- Model of the `create_request` endpoint: validate inputs, resolve or
create the user and the device, return the existing pending request id
if one exists, otherwise insert a new pending request. -/
def appCreateRequest (crypto : CryptoOpt) (db : DB)
    (username vid pid serial deviceInfo : String) (now : Nat) :
    Except String (Nat × String) × DB :=
  if username = "" ∨ vid = "" ∨ pid = "" then (.error "missing data", db)
  else
    match User.getOrCreate crypto db username now with
    | .error e => (.error e, db)
    | .ok (u, db1) =>
      match Device.getOrCreate crypto db1 vid pid serial "" "" now with
      | .error e => (.error e, db1)
      | .ok (d, db2) =>
        match Request.checkExisting db2 u.id d.id with
        | some ex => (.ok (ex.id, "pending"), db2)
        | none =>
          let rd := Request.create db2 u.id d.id deviceInfo now
          (.ok (rd.1, "pending"), rd.2)

/-- Model of the `approve_request` endpoint: look the request up through
the join; absent means 404 with nothing written; otherwise set the
status to approved with a processed time and upsert the grant. -/
def appApproveRequest (crypto : CryptoOpt) (db : DB) (rid : Nat) (now : Nat) :
    Except String String × DB :=
  match Request.getById crypto db rid with
  | none => (.error "request not found", db)
  | some req =>
    let db1 := Request.approve db rid now
    let db2 := Permission.setPermission db1 req.userId req.deviceId true now
    (.ok "approved", db2)

/-! ### List helpers for the store proofs -/

theorem length_le_one_mem_eq {α : Type} {l : List α} (h : l.length ≤ 1) {x : α}
    (hx : x ∈ l) : l = [x] := by
  cases l with
  | nil => cases hx
  | cons a t =>
    cases t with
    | nil =>
      rcases List.mem_singleton.mp hx with rfl
      rfl
    | cons b t2 => simp at h

theorem find?_eq_of_unique {α : Type} {pred : α → Bool} {l : List α}
    (h : (l.filter pred).length ≤ 1) {x : α} (hx : x ∈ l) (hpx : pred x = true) :
    l.find? pred = some x := by
  induction l with
  | nil => cases hx
  | cons a t ih =>
    by_cases ha : pred a = true
    · rw [List.find?_cons_of_pos _ ha]
      have hxf : x ∈ (a :: t).filter pred := List.mem_filter.mpr ⟨hx, hpx⟩
      have haf : a ∈ (a :: t).filter pred :=
        List.mem_filter.mpr ⟨List.mem_cons_self a t, ha⟩
      have := length_le_one_mem_eq h hxf
      rw [this, List.mem_singleton] at haf
      rw [haf]
    · rw [List.find?_cons_of_neg _ ha]
      have hxt : x ∈ t := by
        rcases List.mem_cons.mp hx with rfl | hxt
        · exact absurd hpx ha
        · exact hxt
      refine ih ?_ hxt
      rwa [List.filter_cons_of_neg ha] at h

theorem find?_append_of_none {α : Type} {pred : α → Bool} {l1 : List α} (l2 : List α)
    (h : l1.find? pred = none) : (l1 ++ l2).find? pred = l2.find? pred := by
  induction l1 with
  | nil => rfl
  | cons a t ih =>
    by_cases ha : pred a = true
    · rw [List.find?_cons_of_pos _ ha] at h; cases h
    · rw [List.find?_cons_of_neg _ ha] at h
      rw [List.cons_append, List.find?_cons_of_neg _ ha]
      exact ih h

theorem filter_length_map_invariant {α : Type} {f : α → α} {pred : α → Bool}
    (hf : ∀ x, pred (f x) = pred x) :
    ∀ l : List α, ((l.map f).filter pred).length = (l.filter pred).length := by
  intro l
  induction l with
  | nil => rfl
  | cons a t ih =>
    rw [List.map_cons]
    by_cases ha : pred a = true
    · rw [List.filter_cons_of_pos (by rw [hf]; exact ha),
        List.filter_cons_of_pos ha]
      simp [ih]
    · rw [List.filter_cons_of_neg (by rw [hf]; simpa using ha),
        List.filter_cons_of_neg (by simpa using ha)]
      exact ih

/-! ### Permission upsert lemmas -/

/-- Uniqueness invariant of permissions: at most one row per pair
(the schema constraint UNIQUE(user_id, device_id)). -/
def permUnique (db : DB) : Prop :=
  ∀ uid did : Nat, ((db.permissions.filter (Permission.forPair uid did)).length ≤ 1)

theorem forPair_update (uid did : Nat) (g : Bool) (p : PermissionRow) (u d : Nat) :
    Permission.forPair u d
      (if Permission.forPair uid did p then { p with granted := g } else p) =
    Permission.forPair u d p := by
  by_cases hp : Permission.forPair uid did p = true
  · rw [if_pos hp]
    simp [Permission.forPair]
  · rw [if_neg hp]

theorem find?_granted_after_update (uid did : Nat) (g : Bool) :
    ∀ l : List PermissionRow, l.any (Permission.forPair uid did) = true →
      ((l.map (fun p => if Permission.forPair uid did p then { p with granted := g }
          else p)).find? (Permission.forPair uid did)).map (fun p => p.granted) = some g := by
  intro l
  induction l with
  | nil => intro h; cases h
  | cons a t ih =>
    intro h
    rw [List.map_cons]
    by_cases ha : Permission.forPair uid did a = true
    · rw [List.find?_cons_of_pos _ (by rw [forPair_update]; exact ha)]
      rw [if_pos ha]
      rfl
    · rw [List.find?_cons_of_neg _ (by rw [forPair_update]; simpa using ha)]
      refine ih ?_
      rcases List.any_eq_true.mp h with ⟨x, hx, hpx⟩
      rcases List.mem_cons.mp hx with rfl | hxt
      · exact absurd hpx (by simpa using ha)
      · exact List.any_eq_true.mpr ⟨x, hxt, hpx⟩

/-- After `set_permission`, `check_permission` of the pair reads the grant
just written. -/
theorem checkPermission_setPermission (db : DB) (uid did : Nat) (g : Bool) (now : Nat) :
    Permission.checkPermission (Permission.setPermission db uid did g now) uid did = some g := by
  rw [Permission.setPermission]
  by_cases hex : db.permissions.any (Permission.forPair uid did) = true
  · rw [if_pos hex, Permission.checkPermission]
    exact find?_granted_after_update uid did g db.permissions hex
  · rw [if_neg hex, Permission.checkPermission]
    show ((db.permissions ++
        [(⟨db.nextPermissionId, uid, did, g, now⟩ : PermissionRow)]).find?
      (Permission.forPair uid did)).map (fun p => p.granted) = some g
    have hnone : db.permissions.find? (Permission.forPair uid did) = none := by
      rw [List.find?_eq_none]
      intro x hx
      intro hpx
      exact hex (List.any_eq_true.mpr ⟨x, hx, hpx⟩)
    rw [find?_append_of_none _ hnone]
    rw [List.find?_cons_of_pos _ (by simp [Permission.forPair])]
    rfl

/-- `set_permission` never touches the requests table. -/
theorem setPermission_requests (db : DB) (uid did : Nat) (g : Bool) (now : Nat) :
    (Permission.setPermission db uid did g now).requests = db.requests := by
  rw [Permission.setPermission]
  split <;> rfl

/-- `update_status` never touches the permissions table. -/
theorem updateStatus_permissions (db : DB) (rid : Nat) (status : String) (now : Nat) :
    (Request.updateStatus db rid status now).permissions = db.permissions := rfl

/-! ## Claim C5: tri-state check and single-row upsert -/

/-- Claim C5: `check_permission` returns the stored grant when a row for
the pair exists and nothing when no row exists; immediately after
`set_permission` with grant g it returns g; and `set_permission` keeps at
most one row per pair, updating in place (same row count) when a row
already exists. -/
theorem claimC5_check_set_permission (db : DB) (uid did : Nat) (g : Bool) (now : Nat) :
    (permUnique db → ∀ p ∈ db.permissions, p.userId = uid → p.deviceId = did →
      Permission.checkPermission db uid did = some p.granted) ∧
    ((∀ p ∈ db.permissions, ¬(p.userId = uid ∧ p.deviceId = did)) →
      Permission.checkPermission db uid did = none) ∧
    Permission.checkPermission (Permission.setPermission db uid did g now) uid did = some g ∧
    (permUnique db → permUnique (Permission.setPermission db uid did g now)) ∧
    ((∃ p ∈ db.permissions, p.userId = uid ∧ p.deviceId = did) →
      (Permission.setPermission db uid did g now).permissions.length =
        db.permissions.length) := by
  refine ⟨?_, ?_, checkPermission_setPermission db uid did g now, ?_, ?_⟩
  · intro hinv p hp hu hd
    rw [Permission.checkPermission, find?_eq_of_unique (hinv uid did) hp
      (by simp [Permission.forPair, hu, hd])]
    rfl
  · intro hnone
    rw [Permission.checkPermission, List.find?_eq_none.mpr]
    · rfl
    · intro x hx hpx
      rcases hnone x hx (by
        simp only [Permission.forPair, Bool.and_eq_true, beq_iff_eq] at hpx
        exact hpx)
  · intro hinv u d
    rw [Permission.setPermission]
    by_cases hex : db.permissions.any (Permission.forPair uid did) = true
    · rw [if_pos hex]
      show ((db.permissions.map (fun p => if Permission.forPair uid did p then
          { p with granted := g } else p)).filter (Permission.forPair u d)).length ≤ 1
      rw [filter_length_map_invariant (forPair_update uid did g · u d)]
      exact hinv u d
    · rw [if_neg hex]
      show ((db.permissions ++
          [(⟨db.nextPermissionId, uid, did, g, now⟩ : PermissionRow)]).filter
        (Permission.forPair u d)).length ≤ 1
      rw [List.filter_append]
      by_cases hud : Permission.forPair u d
          (⟨db.nextPermissionId, uid, did, g, now⟩ : PermissionRow) = true
      · have hfilter : db.permissions.filter (Permission.forPair u d) = [] := by
          rw [List.filter_eq_nil_iff]
          intro x hx hpx
          simp only [Permission.forPair, Bool.and_eq_true, beq_iff_eq] at hud hpx
          refine hex (List.any_eq_true.mpr ⟨x, hx, ?_⟩)
          simp only [Permission.forPair, Bool.and_eq_true, beq_iff_eq]
          constructor
          · omega
          · omega
        rw [hfilter, List.filter_cons_of_pos hud]
        simp
      · rw [List.filter_cons_of_neg hud]
        simp only [List.filter_nil, List.append_nil]
        exact hinv u d
  · intro ⟨p, hp, hu, hd⟩
    rw [Permission.setPermission, if_pos (List.any_eq_true.mpr ⟨p, hp,
      by simp [Permission.forPair, hu, hd]⟩)]
    exact List.length_map _ _

theorem claimC5_check_set_permission_witness :
    (Permission.checkPermission
      (⟨[], [], [⟨1, 4, 9, false, 0⟩], [], 1, 1, 2, 1⟩ : DB) 4 9 = some false) ∧
    (Permission.checkPermission
      (Permission.setPermission (⟨[], [], [⟨1, 4, 9, false, 0⟩], [], 1, 1, 2, 1⟩ : DB)
        4 9 true 5) 4 9 = some true) ∧
    ((Permission.setPermission (⟨[], [], [⟨1, 4, 9, false, 0⟩], [], 1, 1, 2, 1⟩ : DB)
        4 9 true 5).permissions.length =
      (⟨[], [], [⟨1, 4, 9, false, 0⟩], [], 1, 1, 2, 1⟩ : DB).permissions.length) ∧
    (Permission.checkPermission (⟨[], [], [⟨1, 4, 9, false, 0⟩], [], 1, 1, 2, 1⟩ : DB)
      4 10 = none) :=
  ⟨(claimC5_check_set_permission ⟨[], [], [⟨1, 4, 9, false, 0⟩], [], 1, 1, 2, 1⟩ 4 9
      true 5).1 (fun u d => List.length_filter_le _ _) ⟨1, 4, 9, false, 0⟩
      (by decide) rfl rfl,
   (claimC5_check_set_permission ⟨[], [], [⟨1, 4, 9, false, 0⟩], [], 1, 1, 2, 1⟩ 4 9
      true 5).2.2.1,
   (claimC5_check_set_permission ⟨[], [], [⟨1, 4, 9, false, 0⟩], [], 1, 1, 2, 1⟩ 4 9
      true 5).2.2.2.2 ⟨⟨1, 4, 9, false, 0⟩, by decide, rfl, rfl⟩,
   (claimC5_check_set_permission ⟨[], [], [⟨1, 4, 9, false, 0⟩], [], 1, 1, 2, 1⟩ 4 10
      true 5).2.1 (by decide)⟩

/-! ## Claim C4: approve stamps the request and grants the permission -/

/-- Claim C4: approving an absent request id yields a not-found error and
leaves the store unchanged; approving an existing request (one the join
resolves) sets its status to approved, stamps processed_at, and upserts
the grant so that `check_permission` of the pair returns true. -/
theorem claimC4_approve (crypto : CryptoOpt) (db : DB) (rid : Nat) (now : Nat) :
    ((∀ r ∈ db.requests, r.id ≠ rid) →
      appApproveRequest crypto db rid now = (.error "request not found", db)) ∧
    (∀ req, Request.getById crypto db rid = some req →
      (∀ r ∈ (appApproveRequest crypto db rid now).2.requests, r.id = rid →
        r.status = "approved" ∧ r.processedAt = some now) ∧
      Permission.checkPermission (appApproveRequest crypto db rid now).2
        req.userId req.deviceId = some true ∧
      (appApproveRequest crypto db rid now).1 = .ok "approved") := by
  constructor
  · intro habsent
    have hfind : db.requests.find? (fun r => r.id == rid) = none := by
      rw [List.find?_eq_none]
      intro x hx hpx
      exact habsent x hx (by simpa using hpx)
    have hget : Request.getById crypto db rid = none := by
      rw [Request.getById, hfind]
      rfl
    rw [appApproveRequest, hget]
  · intro req hreq
    rw [appApproveRequest, hreq]
    refine ⟨?_, checkPermission_setPermission _ _ _ _ _, rfl⟩
    intro r hr hrid
    rw [setPermission_requests] at hr
    rw [Request.approve, Request.updateStatus] at hr
    rcases List.mem_map.mp hr with ⟨r0, hr0, hupd⟩
    by_cases h0 : r0.id = rid
    · rw [if_pos (by simpa using h0)] at hupd
      rw [← hupd]
      exact ⟨rfl, rfl⟩
    · rw [if_neg (by simpa using h0)] at hupd
      rw [← hupd] at hrid
      exact absurd hrid h0

/-- Concrete store used by the C4 witness: one user, one device, one
pending request. -/
def dbApproveEx : DB :=
  ⟨[⟨1, "alice", 0⟩], [⟨1, "0781", "5571", "SN1", "", "", 0⟩], [],
   [⟨1, 1, 1, "flash drive", "pending", 0, none⟩], 2, 2, 1, 2⟩

theorem claimC4_approve_witness :
    (appApproveRequest none dbApproveEx 99 7 = (.error "request not found", dbApproveEx)) ∧
    (∀ r ∈ (appApproveRequest none dbApproveEx 1 7).2.requests, r.id = 1 →
      r.status = "approved" ∧ r.processedAt = some 7) ∧
    Permission.checkPermission (appApproveRequest none dbApproveEx 1 7).2 1 1 = some true ∧
    (appApproveRequest none dbApproveEx 1 7).1 = .ok "approved" :=
  ⟨(claimC4_approve none dbApproveEx 99 7).1 (by decide),
   ((claimC4_approve none dbApproveEx 1 7).2
      ⟨1, 1, 1, "flash drive", "pending", 0, none, "alice", "0781", "5571", "SN1", "", ""⟩
      rfl).1,
   ((claimC4_approve none dbApproveEx 1 7).2
      ⟨1, 1, 1, "flash drive", "pending", 0, none, "alice", "0781", "5571", "SN1", "", ""⟩
      rfl).2.1,
   ((claimC4_approve none dbApproveEx 1 7).2
      ⟨1, 1, 1, "flash drive", "pending", 0, none, "alice", "0781", "5571", "SN1", "", ""⟩
      rfl).2.2⟩

/-! ### Effect lemmas for create_request -/

/-- Uniqueness invariant of pending requests: at most one pending row per
(user, device) pair. -/
def pendingUnique (db : DB) : Prop :=
  ∀ uid did : Nat, (db.requests.filter (Request.isPendingFor uid did)).length ≤ 1

theorem userGetOrCreate_found {crypto : CryptoOpt} {db : DB} {username : String}
    {now : Nat} {u : UserRow} (h : User.getByUsername crypto db username = some u) :
    User.getOrCreate crypto db username now = .ok (u, db) := by
  rw [User.getOrCreate, User.getOrCreateRaced, h]

theorem deviceGetOrCreate_found {crypto : CryptoOpt} {db : DB}
    {vid pid serial name description : String} {now : Nat} {d : DeviceRow}
    (h : Device.getByIdentifiers crypto db vid pid serial = some d) :
    Device.getOrCreate crypto db vid pid serial name description now = .ok (d, db) := by
  rw [Device.getOrCreate, Device.getOrCreateRaced, h]

theorem userCreate_effects {crypto : CryptoOpt} {db : DB} {username : String}
    {now : Nat} {res : Nat × DB} (h : User.create crypto db username now = .ok res) :
    res.2.requests = db.requests ∧ res.2.permissions = db.permissions ∧
    res.2.nextRequestId = db.nextRequestId := by
  rw [User.create] at h
  by_cases hany : db.users.any (fun u => u.username == cryptoEncU crypto username) = true
  · rw [if_pos hany] at h; cases h
  · rw [if_neg hany] at h
    cases h
    exact ⟨rfl, rfl, rfl⟩

theorem deviceCreate_effects {crypto : CryptoOpt} {db : DB}
    {vid pid serial name description : String} {now : Nat} {res : Nat × DB}
    (h : Device.create crypto db vid pid serial name description now = .ok res) :
    res.2.requests = db.requests ∧ res.2.permissions = db.permissions ∧
    res.2.nextRequestId = db.nextRequestId := by
  rw [Device.create] at h
  by_cases hany : db.devices.any (fun d =>
      d.vid == vid && d.pid == pid && d.serial == cryptoEncS crypto serial) = true
  · rw [if_pos hany] at h; cases h
  · rw [if_neg hany] at h
    cases h
    exact ⟨rfl, rfl, rfl⟩

theorem userGetOrCreate_effects {crypto : CryptoOpt} {db : DB} {username : String}
    {now : Nat} {res : UserRow × DB}
    (h : User.getOrCreate crypto db username now = .ok res) :
    res.2.requests = db.requests ∧ res.2.permissions = db.permissions ∧
    res.2.nextRequestId = db.nextRequestId := by
  rw [User.getOrCreate, User.getOrCreateRaced] at h
  split at h
  · cases h
    exact ⟨rfl, rfl, rfl⟩
  · split at h
    · cases h
    · rename_i uid db2 heq
      split at h
      · cases h
        have hp := userCreate_effects heq
        exact ⟨hp.1, hp.2.1, hp.2.2⟩
      · cases h

theorem deviceGetOrCreate_effects {crypto : CryptoOpt} {db : DB}
    {vid pid serial name description : String} {now : Nat} {res : DeviceRow × DB}
    (h : Device.getOrCreate crypto db vid pid serial name description now = .ok res) :
    res.2.requests = db.requests ∧ res.2.permissions = db.permissions ∧
    res.2.nextRequestId = db.nextRequestId := by
  rw [Device.getOrCreate, Device.getOrCreateRaced] at h
  split at h
  · cases h
    exact ⟨rfl, rfl, rfl⟩
  · split at h
    · cases h
    · rename_i did2 db2 heq
      split at h
      · cases h
        have hp := deviceCreate_effects heq
        exact ⟨hp.1, hp.2.1, hp.2.2⟩
      · cases h

theorem foldl_pickLatest_ne_none {l : List RequestRow} :
    ∀ b : RequestRow, l.foldl Request.pickLatest (some b) ≠ none := by
  induction l with
  | nil => intro b h; cases h
  | cons a t ih =>
    intro b
    rw [List.foldl_cons]
    show t.foldl Request.pickLatest (Request.pickLatest (some b) a) ≠ none
    rw [Request.pickLatest]
    split
    · exact ih a
    · exact ih b

theorem checkExisting_eq_none_iff (db : DB) (uid did : Nat) :
    Request.checkExisting db uid did = none ↔
      db.requests.filter (Request.isPendingFor uid did) = [] := by
  rw [Request.checkExisting]
  cases hf : db.requests.filter (Request.isPendingFor uid did) with
  | nil => simp
  | cons a t =>
    constructor
    · intro h
      rw [List.foldl_cons] at h
      exact absurd h (foldl_pickLatest_ne_none a)
    · intro h; cases h

theorem checkExisting_of_unique {db : DB} {uid did : Nat} (hinv : pendingUnique db)
    {r : RequestRow} (hr : r ∈ db.requests)
    (hp : Request.isPendingFor uid did r = true) :
    Request.checkExisting db uid did = some r := by
  have hfilter : db.requests.filter (Request.isPendingFor uid did) = [r] :=
    length_le_one_mem_eq (hinv uid did) (List.mem_filter.mpr ⟨hr, hp⟩)
  rw [Request.checkExisting, hfilter]
  rfl

/-- The pending-uniqueness invariant depends only on the requests table. -/
theorem pendingUnique_congr {db1 db2 : DB} (h : db2.requests = db1.requests)
    (hinv : pendingUnique db1) : pendingUnique db2 := by
  intro uid did
  rw [h]
  exact hinv uid did

/-! ## Claim C3: at most one pending request per pair; creation is idempotent -/

/-- Claim C3: `create_request` preserves the at-most-one-pending-per-pair
invariant; called while a pending request exists for the resolved
(user, device) pair it returns that request's id and writes nothing; and
only when no pending request exists does it insert a new pending row. -/
theorem claimC3_create_request_idempotent (crypto : CryptoOpt) (db : DB)
    (username vid pid serial info : String) (now : Nat) (hinv : pendingUnique db) :
    pendingUnique (appCreateRequest crypto db username vid pid serial info now).2 ∧
    (∀ u d r, User.getByUsername crypto db username = some u →
      Device.getByIdentifiers crypto db vid pid serial = some d →
      r ∈ db.requests → Request.isPendingFor u.id d.id r = true →
      username ≠ "" → vid ≠ "" → pid ≠ "" →
      appCreateRequest crypto db username vid pid serial info now =
        (.ok (r.id, "pending"), db)) ∧
    (∀ u d, User.getByUsername crypto db username = some u →
      Device.getByIdentifiers crypto db vid pid serial = some d →
      (∀ r ∈ db.requests, Request.isPendingFor u.id d.id r = false) →
      username ≠ "" → vid ≠ "" → pid ≠ "" →
      (appCreateRequest crypto db username vid pid serial info now).2.requests =
        db.requests ++ [⟨db.nextRequestId, u.id, d.id, info, "pending", now, none⟩] ∧
      (appCreateRequest crypto db username vid pid serial info now).1 =
        Except.ok (db.nextRequestId, "pending")) := by
  refine ⟨?_, ?_, ?_⟩
  · rw [appCreateRequest]
    split
    · exact hinv
    · split
      · exact hinv
      · rename_i u db1 hu
        split
        · exact pendingUnique_congr (userGetOrCreate_effects hu).1 hinv
        · rename_i d db2 hd
          have h1 := (userGetOrCreate_effects hu).1
          have h2 := (deviceGetOrCreate_effects hd).1
          have h21 : db2.requests = db.requests := h2.trans h1
          split
          · exact pendingUnique_congr h21 hinv
          · rename_i hce
            intro uid did
            show (((db2.requests ++
                [(⟨db2.nextRequestId, u.id, d.id, info, "pending", now, none⟩ :
                  RequestRow)]).filter (Request.isPendingFor uid did)).length ≤ 1)
            have hnil : db2.requests.filter (Request.isPendingFor u.id d.id) = [] :=
              (checkExisting_eq_none_iff db2 u.id d.id).mp hce
            rw [List.filter_append]
            by_cases hpair : Request.isPendingFor uid did
                (⟨db2.nextRequestId, u.id, d.id, info, "pending", now, none⟩ :
                  RequestRow) = true
            · have hud : uid = u.id ∧ did = d.id := by
                simp only [Request.isPendingFor, Bool.and_eq_true, beq_iff_eq] at hpair
                exact ⟨hpair.1.1.symm, hpair.1.2.symm⟩
              rw [hud.1, hud.2, hnil]
              simpa using List.length_filter_le _ _
            · rw [List.filter_cons_of_neg hpair]
              simp only [List.filter_nil, List.append_nil]
              rw [h21]
              exact hinv uid did
  · intro u d r hu hd hr hp hus hv hpid
    rw [appCreateRequest, if_neg (by simp [hus, hv, hpid])]
    rw [userGetOrCreate_found hu]
    simp only []
    rw [deviceGetOrCreate_found hd]
    simp only []
    rw [checkExisting_of_unique hinv hr hp]
  · intro u d hu hd hnone hus hv hpid
    have hce : Request.checkExisting db u.id d.id = none :=
      (checkExisting_eq_none_iff db u.id d.id).mpr (List.filter_eq_nil_iff.mpr
        (fun r hr => by rw [hnone r hr]; simp))
    rw [appCreateRequest, if_neg (by simp [hus, hv, hpid])]
    rw [userGetOrCreate_found hu]
    simp only []
    rw [deviceGetOrCreate_found hd]
    simp only []
    rw [hce]
    exact ⟨rfl, rfl⟩

/-- Concrete store used by the C3 witness: one user, one device, one
already-pending request. -/
def dbPendingEx : DB :=
  ⟨[⟨1, "alice", 0⟩], [⟨1, "0781", "5571", "SN1", "", "", 0⟩], [],
   [⟨1, 1, 1, "flash drive", "pending", 0, none⟩], 2, 2, 1, 2⟩

/-- Concrete store used by the C3 witness: same user and device, no
request yet. -/
def dbFreshEx : DB :=
  ⟨[⟨1, "alice", 0⟩], [⟨1, "0781", "5571", "SN1", "", "", 0⟩], [], [], 2, 2, 1, 5⟩

theorem claimC3_create_request_idempotent_witness :
    appCreateRequest none dbPendingEx "alice" "0781" "5571" "SN1" "again" 9 =
      (.ok (1, "pending"), dbPendingEx) ∧
    ((appCreateRequest none dbFreshEx "alice" "0781" "5571" "SN1" "fresh" 9).2.requests =
      dbFreshEx.requests ++ [⟨5, 1, 1, "fresh", "pending", 9, none⟩] ∧
     (appCreateRequest none dbFreshEx "alice" "0781" "5571" "SN1" "fresh" 9).1 =
      Except.ok (5, "pending")) :=
  ⟨(claimC3_create_request_idempotent none dbPendingEx "alice" "0781" "5571" "SN1"
      "again" 9 (fun uid did => List.length_filter_le _ _)).2.1
      ⟨1, "alice", 0⟩ ⟨1, "0781", "5571", "SN1", "", "", 0⟩
      ⟨1, 1, 1, "flash drive", "pending", 0, none⟩ rfl rfl (by decide) (by decide)
      (by decide) (by decide) (by decide),
   (claimC3_create_request_idempotent none dbFreshEx "alice" "0781" "5571" "SN1"
      "fresh" 9 (fun uid did => Nat.le_trans (List.length_filter_le _ _) (by decide))).2.2
      ⟨1, "alice", 0⟩ ⟨1, "0781", "5571", "SN1", "", "", 0⟩ rfl rfl
      (by decide) (by decide) (by decide) (by decide)⟩

/-! ## Claim C9: the uniqueness-constraint race in get_or_create

The source of `User.get_or_create` and `Device.get_or_create` wraps no
try/except around the insert: when a concurrent identical insert has
committed between the lookup and the insert, the INSERT violates the
UNIQUE constraint and sqlite3.IntegrityError propagates to the caller
instead of being resolved by re-reading the row. -/

/-- Empty store used by the C9 demonstration. -/
def dbEmptyEx : DB := ⟨[], [], [], [], 1, 1, 1, 1⟩

/-- A concurrent handler inserting the identical user between the lookup
and the insert. -/
def aliceRace (db : DB) : DB :=
  { db with users := db.users ++ [⟨db.nextUserId, "alice", 0⟩],
            nextUserId := db.nextUserId + 1 }

/-- A concurrent handler inserting the identical device between the lookup
and the insert. -/
def deviceRace (db : DB) : DB :=
  { db with devices := db.devices ++ [⟨db.nextDeviceId, "0781", "5571", "SN1", "", "", 0⟩],
            nextDeviceId := db.nextDeviceId + 1 }

/-- Claim C9, evaluated at the failing input: with a concurrent identical
insert landing between lookup and insert, `get_or_create` for both User
and Device returns the propagated constraint error — the source catches
nothing and never re-reads the now-existing row, contradicting the
claim that the error is resolved locally and never surfaced. -/
theorem claimC9_constraint_error_propagates :
    User.getOrCreateRaced none dbEmptyEx "alice" 1 aliceRace =
      .error "UNIQUE constraint failed: users.username" ∧
    Device.getOrCreateRaced none dbEmptyEx "0781" "5571" "SN1" "" "" 1 deviceRace =
      .error "UNIQUE constraint failed: devices.vid, devices.pid, devices.serial" :=
  ⟨rfl, rfl⟩
